import Mathlib

/-!
Verification of `multilib/multilibify.py` (flatpak-builder-tools).

The Python program is shallowly embedded: the generic YAML/JSON document
tree becomes the inductive type `Value`; Python `dict`s become ordered
association lists (`DictMap`); file I/O is modelled by a finite in-memory
file system (`DictMap` from path to parsed document); POSIX path
arithmetic (`os.path.dirname` / `join` / `relpath`) is implemented
character-by-character following CPython's `posixpath`; exceptions become
the `Err` sum propagated through `Except`; the unbounded mutual recursion
of `multilibify` is made total with an explicit fuel counter (fuel runs
out only below the nesting depth of the manifest, and every theorem
quantifies over or supplies sufficient fuel).
-/

namespace Multilib

/-- The generic in-memory document: nested mappings with string keys and
insertion order preserved, sequences, and scalars.  Mirrors what
`yaml.safe_load` / `json.load` produce in the Python source. -/
inductive Value where
  | str (s : String)
  | num (n : Int)
  | bool (b : Bool)
  | null
  | seq (l : List Value)
  | map (m : List (String × Value))

/-- Python dicts are modelled as ordered association lists (CPython dicts
preserve insertion order and cannot hold duplicate keys). -/
abbrev DictMap := List (String × Value)

/-- Exceptions the Python code can raise on the paths the claims
exercise: `KeyError`, `TypeError`-style shape errors, `FileNotFoundError`,
the `ValueError` of `load_dict_file`/`save_dict_file`, and the artificial
fuel-exhaustion marker of the embedding. -/
inductive Err where
  | keyError (k : String)
  | typeError
  | fileNotFound (f : String)
  | valueError (f : String)
  | fuelOut
  deriving DecidableEq

/-- `d[key]` read: first (and in a real dict, only) binding wins. -/
def dictGet : DictMap → String → Option Value
  | [], _ => none
  | (k, v) :: rest, key => if k = key then some v else dictGet rest key

/-- `d[key] = val`: update the existing binding in place (insertion order
kept), append at the end when the key is new — CPython dict semantics. -/
def dictSet : DictMap → String → Value → DictMap
  | [], key, val => [(key, val)]
  | (k, v) :: rest, key, val =>
      if k = key then (k, val) :: rest else (k, v) :: dictSet rest key val

/-- Removal of a key (all occurrences; a real dict has at most one). -/
def dictRemove : DictMap → String → DictMap
  | [], _ => []
  | (k, v) :: rest, key =>
      if k = key then dictRemove rest key else (k, v) :: dictRemove rest key

/-- `d.pop(key, default)`: the value (or the default) together with the
dict without the key. -/
def dictPop (m : DictMap) (key : String) (dflt : Value) : Value × DictMap :=
  ((dictGet m key).getD dflt, dictRemove m key)

/-- Python truthiness, used by `if not orig_module.pop(MULTILIB_PROP, ...)`:
empty strings/containers, zero, `False` and `None` are falsy. -/
def Value.truthy : Value → Bool
  | .str s => !s.isEmpty
  | .num n => n != 0
  | .bool b => b
  | .null => false
  | .seq l => !l.isEmpty
  | .map m => !m.isEmpty

/-! ### POSIX path arithmetic (`os.path.dirname`, `os.path.join`,
`os.path.relpath`), implemented over `List Char` following CPython's
`posixpath` module.  `relpath` makes both arguments absolute against the
current working directory; the embedding fixes the cwd at the filesystem
root, which leaves `relpath` unchanged whenever both arguments are
relative paths that do not climb above the cwd with leading `..`
segments (the only situations the program and the claims exercise). -/

/-- Split a character list at every `/` (like `"p".split("/")`; keeps
empty parts). -/
def splitSlash : List Char → List (List Char)
  | [] => [[]]
  | c :: rest =>
      if c = '/' then [] :: splitSlash rest
      else
        match splitSlash rest with
        | [] => [[c]]
        | h :: t => (c :: h) :: t

/-- Re-join path components with `/` separators (inverse of
`splitSlash`; also CPython's `join(*parts)` for slash-free parts). -/
def joinParts : List (List Char) → List Char
  | [] => []
  | [p] => p
  | p :: rest => p ++ '/' :: joinParts rest

/-- One step of absolute-path normalisation: empty and `.` components
vanish, `..` pops the previous component (and vanishes at the root). -/
def normStep (acc : List (List Char)) (c : List Char) : List (List Char) :=
  if c = [] ∨ c = ['.'] then acc
  else if c = ['.', '.'] then acc.dropLast
  else acc ++ [c]

/-- Normalisation of an *absolute* path's component list, as performed by
`os.path.abspath`/`normpath`. -/
def normParts (parts : List (List Char)) : List (List Char) :=
  parts.foldl normStep []

/-- Component list of `os.path.abspath p` with the cwd at the root. -/
def absParts (p : String) : List (List Char) := normParts (splitSlash p.data)

/-- Length of the longest common prefix of two component lists
(`os.path.commonprefix` applied to the two lists). -/
def commonLen : List (List Char) → List (List Char) → Nat
  | a :: as, b :: bs => if a = b then commonLen as bs + 1 else 0
  | _, _ => 0

/-- Does the string start with `/`? (`p.startswith("/")`). -/
def headSlash (s : String) : Bool :=
  match s.data with
  | c :: _ => c = '/'
  | [] => false

/-- Does the string end with `/`? (`p.endswith("/")`). -/
def lastSlash (s : String) : Bool :=
  match s.data.getLast? with
  | some c => c = '/'
  | none => false

/-- `os.path.join(a, b)` for two arguments (posixpath): an absolute `b`
wins; otherwise the parts are glued with exactly one `/`. -/
def joinPath (a b : String) : String :=
  if headSlash b then b
  else if a.data = [] ∨ lastSlash a then String.mk (a.data ++ b.data)
  else String.mk (a.data ++ '/' :: b.data)

/-- `os.path.dirname` on a character list: the part before the last `/`,
with trailing slashes stripped unless the result is all slashes. -/
def dirnameList (l : List Char) : List Char :=
  let head := (l.reverse.dropWhile (fun c => c ≠ '/')).reverse
  if head = [] then []
  else if head.all (fun c => c = '/') then head
  else (head.reverse.dropWhile (fun c => c = '/')).reverse

/-- `os.path.dirname`. -/
def dirname (p : String) : String := String.mk (dirnameList p.data)

/-- `os.path.relpath(path, start)` (posixpath, cwd fixed at the root):
make both absolute, drop the common component prefix, climb out of the
remaining `start` components with `..` and descend into the remaining
`path` components. -/
def relpath (path start : String) : String :=
  let pl := absParts path
  let sl := absParts start
  let i := commonLen sl pl
  let rel := List.replicate (sl.length - i) ['.', '.'] ++ pl.drop i
  if rel = [] then "." else String.mk (joinParts rel)

/-! ### The program constants (`multilibify.py` lines 10-28). -/

/-- `MULTILIB_PROP = "x-multilib"`. -/
def MULTILIB_PROP : String := "x-multilib"

/-- Per-variant configuration: the holder property carrying the override
document and the optional module-name suffix. -/
structure VariantOpts where
  prop : String
  nameSuffix : Option String

/-- The fixed `VARIANTS` table (insertion order preserved: `native`
before `compat`; only `compat` declares a `name-suffix`). -/
def VARIANTS : List (String × VariantOpts) :=
  [("native", ⟨"x-native-module", none⟩),
   ("compat", ⟨"x-compat32-module", some "-32bit"⟩)]

/-- Association lookup in `VARIANTS` (`VARIANTS[v]`, `KeyError` when the
variant name is unknown — modelled by `none`). -/
def variantsFind : List (String × VariantOpts) → String → Option VariantOpts
  | [], _ => none
  | (k, o) :: rest, key => if k = key then some o else variantsFind rest key

/-- `VARIANTS[v].get("name-suffix", "")`, as a total function (the looped
variant names always come from `VARIANTS`). -/
def suffixOf (v : String) : String :=
  match variantsFind VARIANTS v with
  | some o => o.nameSuffix.getD ""
  | none => ""

/-! ### Document loader / saver (lines 30-49).  The file system is a
finite map from path to the parsed document; `open` raises
`FileNotFoundError` before the suffix is inspected, exactly as in the
source where the suffix check sits inside the `with open(...)` block. -/

/-- The two on-disk formats. -/
inductive FileFormat where
  | yaml
  | json
  deriving DecidableEq

/-- `s.endswith(suf)`: character-list suffix test. -/
def strEndsWith (s suf : String) : Bool :=
  if suf.data.length ≤ s.data.length then
    s.data.drop (s.data.length - suf.data.length) = suf.data
  else false

/-- Loader format dispatch, lines 32-37: note that the source's suffix
list is `[".yml", ".yml.in", ".yaml", "yaml.in"]` — the fourth entry
lacks its leading dot. -/
def load_format (dict_file : String) : Option FileFormat :=
  if [".yml", ".yml.in", ".yaml", "yaml.in"].any (fun i => strEndsWith dict_file i) then
    some .yaml
  else if [".json", ".json.in"].any (fun i => strEndsWith dict_file i) then
    some .json
  else none

/-- Saver format dispatch, lines 43-48: only bare `.yml`, `.yaml`,
`.json`. -/
def save_format (dict_file : String) : Option FileFormat :=
  if [".yml", ".yaml"].any (fun i => strEndsWith dict_file i) then some .yaml
  else if strEndsWith dict_file ".json" then some .json
  else none

/-- `load_dict_file`, lines 30-39, over the in-memory file system: a
missing file raises `FileNotFoundError` (the `open` comes first), an
unrecognised suffix raises `ValueError`, otherwise the parsed document
stored for the path is returned (the YAML and JSON parsers agree on the
generic document model, so the chosen parser does not change the
result). -/
def load_dict_file (fs : DictMap) (dict_file : String) : Except Err Value :=
  match dictGet fs dict_file with
  | none => .error (.fileNotFound dict_file)
  | some d =>
      match load_format dict_file with
      | some _ => .ok d
      | none => .error (.valueError dict_file)

/-! ### Deep merge (`merge_dicts`, lines 51-58). -/

mutual
/-- The merge of one update value over the matching base value (or
`None` when the base lacks the key): `merge_dicts(base[k], update[k])`
when `isinstance(merged_dict.get(upd_key), dict) and isinstance(upd_val,
dict)` (line 54), the update value wholesale otherwise (line 57). -/
def mergeVal : Value → Value → Value
  | Value.map bm, Value.map um => Value.map (merge_dicts bm um)
  | _, u => u
/-- `merge_dicts(base_dict, update_dict)` (lines 51-58): walk the update
items in order; when both sides hold a dict under the key, merge
recursively, otherwise the update value replaces the base value.  The
Python function deep-copies `base_dict` first; the embedding is pure, so
the base is never mutated by construction. -/
def merge_dicts : DictMap → DictMap → DictMap
  | base, [] => base
  | base, (k, v) :: rest =>
      merge_dicts (dictSet base k (mergeVal ((dictGet base k).getD Value.null) v)) rest
end

/-! ### The manifest expander (`multilibify`, lines 60-100).

The Python function is an unboundedly recursive in-place mutation; the
embedding is a pure function with an explicit fuel counter that drops by
one exactly at the recursive `multilibify` call of line 96.  The two
inner `for` loops become `processModules` (the lines 76-97 loop, body
`processModule`) and `processVariants` (the lines 92-97 loop); they take
the recursive call as the function argument `recur` so that they stay
non-recursive in `multilibify` itself. -/

/-- `str()` conversion as performed by `"..." .format(...)` on the module
name in line 94.  The claims only exercise string names; the repr of
containers is abbreviated. -/
def pyFormatStr : Value → String
  | .str s => s
  | .num n => toString n
  | .bool b => if b then "True" else "False"
  | .null => "None"
  | .seq _ => "[...]"
  | .map _ => "{...}"

/-- Lines 84-86 for one entry of `sources`: when the entry is a mapping
with a `path`, join the path onto the module file's directory and
re-express it relative to `base_dir`.  A non-string `path` would make
`os.path.join` raise (`TypeError`); a source entry that is not a mapping
passes through (Python's `"path" in source` substring/containment check
on such entries is not exercised by any claim). -/
def rewriteSource (module_file base_dir : String) : Value → Except Err Value
  | Value.map sm =>
      match dictGet sm "path" with
      | some (Value.str p) =>
          let source_path := joinPath (dirname module_file) p
          .ok (Value.map (dictSet sm "path" (Value.str (relpath source_path base_dir))))
      | some _ => .error Err.typeError
      | none => .ok (Value.map sm)
  | v => .ok v

/-- Lines 83-86: `orig_module["sources"]` (raising `KeyError` when the
key is missing) must be a sequence, and every entry is rewritten. -/
def rewriteSources (module_file base_dir : String) (m : DictMap) :
    Except Err DictMap :=
  match dictGet m "sources" with
  | none => .error (Err.keyError "sources")
  | some (Value.seq srcs) => do
      let newSrcs ← srcs.mapM (rewriteSource module_file base_dir)
      pure (dictSet m "sources" (Value.seq newSrcs))
  | some _ => .error Err.typeError

/-- The lines 92-97 loop over the active variants: merge the override
into the module, rename it to `orig_module["name"]` plus the
`VARIANTS[v]` suffix, and recurse (through `recur`) when the produced
module has nested `modules`. -/
def processVariants
    (recur : DictMap → String → List (String × Value) → Except Err DictMap)
    (module_file : String) (orig_module : DictMap) :
    List (String × Value) → Except Err (List Value)
  | [] => .ok []
  | (v, props) :: rest => do
      let propsMap ← match props with
        | Value.map pm => pure pm
        | _ => .error Err.typeError
      let merged := merge_dicts orig_module propsMap
      let nameV ← match dictGet orig_module "name" with
        | some nv => pure nv
        | none => .error (Err.keyError "name")
      let vOpts ← match variantsFind VARIANTS v with
        | some o => pure o
        | none => .error (Err.keyError v)
      let renamed :=
        dictSet merged "name" (Value.str (pyFormatStr nameV ++ vOpts.nameSuffix.getD ""))
      let new_module ←
        if (dictGet renamed "modules").isSome then recur renamed module_file [(v, props)]
        else pure renamed
      let rest' ← processVariants recur module_file orig_module rest
      pure (Value.map new_module :: rest')

/-- Lines 83-97 for one already-resolved module document: the document
must be a mapping; its source paths are rewritten, the module's opt-out
flag is popped with the holder-level value as default, and the module is
either kept as is (flag falsy) or expanded per variant. -/
def processResolvedModule
    (recur : DictMap → String → List (String × Value) → Except Err DictMap)
    (base_dir : String) (holder_multilib : Value)
    (variants : List (String × Value)) (module_file : String)
    (resolved : Value) : Except Err (List Value) := do
  let m ← match resolved with
    | Value.map mm => pure mm
    | _ => .error Err.typeError
  let m ← rewriteSources module_file base_dir m
  let popped := dictPop m MULTILIB_PROP holder_multilib
  if popped.1.truthy = false then
    pure [Value.map popped.2]
  else
    processVariants recur module_file popped.2 variants

/-- The body of the lines 76-97 loop for one entry of `modules`: resolve
a string entry by loading the referenced file (remembering it as the new
`module_file`), then process the resolved document. -/
def processModule (fs : DictMap)
    (recur : DictMap → String → List (String × Value) → Except Err DictMap)
    (holder_dir holder_file base_dir : String) (holder_multilib : Value)
    (variants : List (String × Value)) (orig_module : Value) :
    Except Err (List Value) := do
  let resolved ←
    match orig_module with
    | Value.str s => do
        let mf := joinPath holder_dir s
        let d ← load_dict_file fs mf
        pure (mf, d)
    | v => pure (holder_file, v)
  processResolvedModule recur base_dir holder_multilib variants
    resolved.1 resolved.2

/-- The lines 76-97 loop itself: per-module outputs are appended in
order; an exception aborts the whole run. -/
def processModules (pm : Value → Except Err (List Value)) :
    List Value → Except Err (List Value)
  | [] => .ok []
  | x :: rest => do
      let outs ← pm x
      let rest' ← processModules pm rest
      pure (outs ++ rest')

/-- Lines 69-70: resolve one popped override property value — a string
is a relative file path to load, anything else is used in place. -/
def resolveProp (fs : DictMap) (holder_dir : String) : Value → Except Err Value
  | Value.str s => load_dict_file fs (joinPath holder_dir s)
  | w => pure w

/-- Lines 66-70: on first entry, pop each declared variant's override
property from the holder (defaulting to an empty mapping) and load it as
a file when it is a string path. -/
def resolveVariantsAux (fs : DictMap) (holder_dir : String) :
    List (String × VariantOpts) → DictMap →
    Except Err (List (String × Value) × DictMap)
  | [], holder_object => .ok ([], holder_object)
  | (v, opts) :: rest, holder_object => do
      let popped := dictPop holder_object opts.prop (Value.map [])
      let pv ← resolveProp fs holder_dir popped.1
      let (vs, h) ← resolveVariantsAux fs holder_dir rest popped.2
      pure ((v, pv) :: vs, h)

/-- Lines 65-70 for the full `VARIANTS` table. -/
def resolveVariants (fs : DictMap) (holder_dir : String)
    (holder_object : DictMap) :
    Except Err (List (String × Value) × DictMap) :=
  resolveVariantsAux fs holder_dir VARIANTS holder_object

/-- Lines 72-100 after the variant set is settled: pop the holder-level
opt-out flag (default `True`), process each entry of
`holder_object["modules"]`, and replace the module list with the
collected outputs. -/
def multilibifyCore (fs : DictMap)
    (recur : DictMap → String → List (String × Value) → Except Err DictMap)
    (holder_dir holder_file base_dir : String)
    (variants : List (String × Value)) (holder_object : DictMap) :
    Except Err DictMap := do
  let popped := dictPop holder_object MULTILIB_PROP (Value.bool true)
  let origModulesV ← match dictGet popped.2 "modules" with
    | some v => pure v
    | none => .error (Err.keyError "modules")
  let orig_modules ← match origModulesV with
    | Value.seq l => pure l
    | _ => .error Err.typeError
  let modules ← processModules
    (processModule fs recur holder_dir holder_file base_dir popped.1 variants)
    orig_modules
  pure (dictSet popped.2 "modules" (Value.seq modules))

/-- `multilibify(holder_object, holder_file, base_dir, variants)`
(lines 60-100).  `base_dir` defaults to the directory of `holder_file`;
an unset `variants` triggers the one-time variant extraction; the rest
is `multilibifyCore`.  The recursive call of line 96 is the `recur`
lambda, at one fuel less. -/
def multilibify (fs : DictMap) :
    Nat → DictMap → String → Option String → Option (List (String × Value)) →
    Except Err DictMap
  | 0, _, _, _, _ => .error Err.fuelOut
  | Nat.succ fuel, holder_object, holder_file, base_dirOpt, variantsOpt => do
      let holder_dir := dirname holder_file
      let base_dir := match base_dirOpt with
        | none => holder_dir
        | some b => b
      let resolvedV ←
        match variantsOpt with
        | some vs => pure (vs, holder_object)
        | none => resolveVariants fs holder_dir holder_object
      multilibifyCore fs
        (fun h f v => multilibify fs fuel h f (some base_dir) (some v))
        holder_dir holder_file base_dir resolvedV.1 resolvedV.2

/-! ### Saving (`save_dict_file`, lines 41-49): the write itself is
modelled as the produced path/document pair. -/

/-- `save_dict_file`: an unrecognised target suffix raises `ValueError`,
otherwise the document is written at the path. -/
def save_dict_file (dict_data : Value) (dict_file : String) :
    Except Err (String × Value) :=
  match save_format dict_file with
  | some _ => .ok (dict_file, dict_data)
  | none => .error (.valueError dict_file)

/-! ### The cleanup filter (`uncleanup`, lines 102-114) and the tiny
regular-expression engine it needs.

`UNCLEANUP_PATTERNS` only uses three `re` constructs: a leading `^`
anchor, the any-character class `.` (which does not match a newline) and
the one-or-more postfix `+`; everything else is a literal character.
`re.match` anchors at the start of the string and does not require the
match to reach its end, so a successful match is exactly a matching
prefix. -/

/-- One regex atom: a literal character or `.` (any character except a
newline). -/
inductive RTok where
  | lit (c : Char)
  | dot
  deriving DecidableEq

/-- Compile a pattern tail into atoms, each with its `+` flag. -/
def parsePat : List Char → List (RTok × Bool)
  | [] => []
  | c :: '+' :: rest =>
      ((if c = '.' then RTok.dot else RTok.lit c), true) :: parsePat rest
  | c :: rest =>
      ((if c = '.' then RTok.dot else RTok.lit c), false) :: parsePat rest

/-- A literal atom without a `+` flag (what `parsePat` produces for
every plain character). -/
def litTok (c : Char) : RTok × Bool := (RTok.lit c, false)

/-- Does an atom match one character? -/
def tokMatches : RTok → Char → Bool
  | RTok.lit a, c => a = c
  | RTok.dot, c => c ≠ '\n'

/-- Match a compiled pattern against a prefix of the character list.  A
`+` atom consumes some positive number of matching characters (the
existence of any split is equivalent to `re`'s backtracking search). -/
def reMatchToks : List (RTok × Bool) → List Char → Bool
  | [], _ => true
  | (_, false) :: _, [] => false
  | (t, false) :: ts, c :: cs => tokMatches t c && reMatchToks ts cs
  | (t, true) :: ts, cs =>
      (List.range cs.length).any (fun k =>
        (cs.take (k + 1)).all (tokMatches t) && reMatchToks ts (cs.drop (k + 1)))

/-- `re.compile(pattern)` + `.match(s)`, for the pattern subset used by
`UNCLEANUP_PATTERNS` (a leading `^` is redundant for `re.match` and is
stripped). -/
def reMatch (pattern s : String) : Bool :=
  reMatchToks
    (parsePat (match pattern.data with
               | '^' :: rest => rest
               | l => l))
    s.data

/-- The fixed pattern list of lines 21-28. -/
def UNCLEANUP_PATTERNS : List String :=
  ["^/include",
   "^/lib/.+/include",
   "^/lib/pkgconfig",
   "^/share/pkgconfig",
   "^/share/aclocal",
   "^/lib/cmake"]

/-- Line 108: keep a cleanup entry iff no pattern matches it.  (Python
would raise `TypeError` on a non-string entry; no claim exercises
that.) -/
def keepCleanupEntry (p : Value) : Bool :=
  match p with
  | Value.str s => !(UNCLEANUP_PATTERNS.any (fun r => reMatch r s))
  | _ => true

/-- Lines 105-110 applied to the value under `cleanup`: filter a
sequence, keeping order; a non-sequence is left alone (Python would
iterate a string's characters there; no claim exercises that). -/
def filterCleanup : Value → Value
  | Value.seq l => Value.seq (l.filter keepCleanupEntry)
  | v => v

mutual
/-- `uncleanup(holder_object)` (lines 102-114) with the default compiled
`UNCLEANUP_PATTERNS`: filter this node's `cleanup` sequence and recurse
into every entry of its `modules` sequence.  A non-mapping node is left
alone (Python's `"cleanup" in holder_object` containment test on
non-dicts is not exercised by any claim). -/
def uncleanup : Value → Value
  | Value.map m => Value.map (uncleanupDict m)
  | v => v
/-- `uncleanup` over the items of one mapping: only the `cleanup` and
`modules` values change, in place. -/
def uncleanupDict : DictMap → DictMap
  | [] => []
  | (k, v) :: rest =>
      (k,
        if k = "cleanup" then filterCleanup v
        else if k = "modules" then uncleanupModules v
        else v) :: uncleanupDict rest
/-- Lines 111-113: recurse into each module of a `modules` sequence. -/
def uncleanupModules : Value → Value
  | Value.seq l => Value.seq (uncleanupList l)
  | v => v
/-- The lines 112-113 loop. -/
def uncleanupList : List Value → List Value
  | [] => []
  | x :: rest => uncleanup x :: uncleanupList rest
end


/-! ### Auxiliary notions for the specification statements. -/

/-- A clean path component: nonempty, slash-free, and not one of the
special components `.` and `..` — the shape `os.path.relpath` leaves in
its output and the normal shape of manifest-relative paths. -/
def goodComp (c : List Char) : Prop :=
  c ≠ [] ∧ '/' ∉ c ∧ c ≠ ['.'] ∧ c ≠ ['.', '.']

instance goodCompDecidable (c : List Char) : Decidable (goodComp c) :=
  inferInstanceAs (Decidable (_ ∧ _ ∧ _ ∧ _))

/-- The hypothesis of the amended claim C9: none of the variant override
documents (those that are mappings at all) carries the opt-out key. -/
def propsFlagFree (vs : List (String × Value)) : Prop :=
  ∀ x ∈ vs, ∀ pm : DictMap, x.2 = Value.map pm → dictGet pm MULTILIB_PROP = none

/-- The spec-side reading of the fixed cleanup patterns: a string is hit
exactly when its *start* matches one of the six patterns — literal
prefixes for five of them, and `/lib/` + one-or-more non-newline
characters + `/include` for the second — with no requirement that the
match reach the string's end. -/
def matchesUncleanupSpec (s : String) : Prop :=
  (∃ t, s.data = "/include".data ++ t) ∨
  (∃ mid t, s.data = "/lib/".data ++ mid ++ "/include".data ++ t ∧
      mid ≠ [] ∧ '\n' ∉ mid) ∨
  (∃ t, s.data = "/lib/pkgconfig".data ++ t) ∨
  (∃ t, s.data = "/share/pkgconfig".data ++ t) ∨
  (∃ t, s.data = "/share/aclocal".data ++ t) ∨
  (∃ t, s.data = "/lib/cmake".data ++ t)

/-! ### A family of nested-manifest fixtures for claim C3: a chain of
`n` module files `sub/c.json`, `sub/sub/c.json`, …, each referencing the
next one level deeper and each declaring the source path `src.c`
relative to its own directory. -/

/-- `i` copies of the component `sub`. -/
def subsL : Nat → List (List Char)
  | 0 => []
  | Nat.succ k => "sub".data :: subsL k

/-- The directory of the level-`i` module file: `sub/…/sub` (`i` times;
empty for `i = 0`). -/
def dirStr (i : Nat) : String := String.mk (joinParts (subsL i))

/-- The level-`i` module file `sub/…/sub/c.json`. -/
def chainFile (i : Nat) : String :=
  String.mk (joinParts (subsL i ++ ["c.json".data]))

/-- The level-`i` source path re-expressed relative to the top manifest:
`sub/…/sub/src.c`. -/
def chainSrcPath (i : Nat) : String :=
  String.mk (joinParts (subsL i ++ ["src.c".data]))

/-- The document stored at `chainFile i` in a chain of depth `n`: name
`m`, one source `src.c`, and a reference to the next file while below
depth `n`. -/
def chainDoc (i n : Nat) : Value :=
  Value.map
    ([("name", Value.str "m"),
      ("sources", Value.seq [Value.map [("path", Value.str "src.c")]])] ++
     (if i < n then [("modules", Value.seq [Value.str "sub/c.json"])] else []))

/-- The in-memory file system holding the whole chain. -/
def fsChain (n : Nat) : DictMap :=
  (List.range n).map (fun j => (chainFile (j + 1), chainDoc (j + 1) n))

/-- The expected expanded module at level `i` with `k` further levels
below it: every source path has become `sub/…/sub/src.c` relative to the
top manifest's directory. -/
def chainOutAux : Nat → Nat → DictMap
  | 0, i =>
      [("name", Value.str "m"),
       ("sources", Value.seq [Value.map [("path", Value.str (chainSrcPath i))]])]
  | Nat.succ k, i =>
      [("name", Value.str "m"),
       ("sources", Value.seq [Value.map [("path", Value.str (chainSrcPath i))]]),
       ("modules", Value.seq [Value.map (chainOutAux k (i + 1))])]

/-- The level-`i` module document after source rewriting and renaming,
with its deeper reference still present: exactly the value line 96
recurses on for the chain. -/
def chainHolder (i : Nat) : DictMap :=
  [("name", Value.str "m"),
   ("sources", Value.seq [Value.map [("path", Value.str (chainSrcPath i))]]),
   ("modules", Value.seq [Value.str "sub/c.json"])]

/-! ## Sanity evaluations of the embedding -/

example : dirname "sub/child.json" = "sub" := by rfl
example : dirname "child.json" = "" := by rfl
example : dirname "/x" = "/" := by rfl
example : joinPath "sub" "src.c" = "sub/src.c" := by rfl
example : joinPath "" "src.c" = "src.c" := by rfl
example : relpath "sub/src.c" "" = "sub/src.c" := by rfl
example : relpath "a/b/c.h" "a" = "b/c.h" := by rfl
example : relpath "a/x.h" "a/b" = "../x.h" := by rfl
example : relpath "a" "a" = "." := by rfl

example :
    uncleanup (Value.map
      [("cleanup", Value.seq [Value.str "/include/x.h", Value.str "/usr/lib/foo.so"]),
       ("modules", Value.seq [Value.map
         [("cleanup", Value.seq [Value.str "/lib/pkgconfig", Value.str "/bin/tool"])]])]) =
    Value.map
      [("cleanup", Value.seq [Value.str "/usr/lib/foo.so"]),
       ("modules", Value.seq [Value.map
         [("cleanup", Value.seq [Value.str "/bin/tool"])]])] := by rfl

example : reMatch "^/lib/.+/include" "/lib/x86_64/include/foo" = true := by rfl
example : reMatch "^/lib/.+/include" "/lib/include" = false := by rfl
example : reMatch "^/lib/cmake" "/lib/cmake-extra/foo" = true := by rfl

/-- The first Python equation: an empty update leaves the base as is. -/
@[simp] theorem merge_dicts_nil (base : DictMap) : merge_dicts base [] = base := rfl

/-- The recursive Python equation for `merge_dicts`, item by item. -/
theorem merge_dicts_cons (base : DictMap) (k : String) (v : Value) (rest : DictMap) :
    merge_dicts base ((k, v) :: rest) =
      merge_dicts (dictSet base k (mergeVal ((dictGet base k).getD Value.null) v)) rest := by
  rw [merge_dicts]

/-! ## Monadic plumbing lemmas for `Except` -/

@[simp] theorem exceptPure {α : Type} (a : α) :
    (pure a : Except Err α) = Except.ok a := rfl

@[simp] theorem exceptBind_ok {α β : Type} (a : α) (f : α → Except Err β) :
    (Except.ok a >>= f) = f a := rfl

@[simp] theorem exceptBind_error {α β : Type} (e : Err) (f : α → Except Err β) :
    ((Except.error e : Except Err α) >>= f) = Except.error e := rfl

@[simp] theorem exceptMap_ok {α β : Type} (a : α) (f : α → β) :
    (f <$> Except.ok a : Except Err β) = Except.ok (f a) := rfl

@[simp] theorem exceptMap_error {α β : Type} (e : Err) (f : α → β) :
    (f <$> (Except.error e : Except Err α) : Except Err β) = Except.error e := rfl

/-! ## Dictionary lemmas -/

theorem dictGet_dictSet_self (m : DictMap) (k : String) (v : Value) :
    dictGet (dictSet m k v) k = some v := by
  induction m with
  | nil => simp [dictSet, dictGet]
  | cons kv rest ih =>
      obtain ⟨k', v'⟩ := kv
      by_cases h : k' = k
      · subst h; simp [dictSet, dictGet]
      · simp [dictSet, dictGet, h, ih]

theorem dictGet_dictSet_ne (m : DictMap) (k k' : String) (v : Value)
    (h : k' ≠ k) : dictGet (dictSet m k v) k' = dictGet m k' := by
  induction m with
  | nil => simp [dictSet, dictGet, Ne.symm h]
  | cons kv rest ih =>
      obtain ⟨k₀, v₀⟩ := kv
      by_cases h0 : k₀ = k
      · subst h0
        simp only [dictSet, if_pos rfl, dictGet, if_neg (Ne.symm h)]
      · simp only [dictSet, if_neg h0, dictGet]
        by_cases h1 : k₀ = k'
        · simp [h1]
        · simp [h1, ih]

theorem dictGet_dictRemove_self (m : DictMap) (k : String) :
    dictGet (dictRemove m k) k = none := by
  induction m with
  | nil => simp [dictRemove, dictGet]
  | cons kv rest ih =>
      obtain ⟨k', v'⟩ := kv
      by_cases h : k' = k
      · subst h; simp [dictRemove, ih]
      · simp [dictRemove, dictGet, h, ih]

theorem dictGet_dictRemove_ne (m : DictMap) (k k' : String) (h : k' ≠ k) :
    dictGet (dictRemove m k) k' = dictGet m k' := by
  induction m with
  | nil => simp [dictRemove]
  | cons kv rest ih =>
      obtain ⟨k₀, v₀⟩ := kv
      by_cases h0 : k₀ = k
      · subst h0
        simp [dictRemove, dictGet, ih, Ne.symm h]
      · simp only [dictRemove, if_neg h0, dictGet]
        by_cases h1 : k₀ = k'
        · simp [h1]
        · simp [h1, ih]

theorem dictGet_eq_none_of_not_mem_keys (m : DictMap) (k : String)
    (h : k ∉ m.map Prod.fst) : dictGet m k = none := by
  induction m with
  | nil => rfl
  | cons kv rest ih =>
      obtain ⟨k', v'⟩ := kv
      simp only [List.map_cons, List.mem_cons] at h
      push_neg at h
      simp only [dictGet, if_neg (Ne.symm h.1)]
      exact ih h.2

/-! ## Deep-merge lemmas (claim C5) -/

/-- A key absent from the update keeps its base value after the merge
(no well-formedness of the update needed). -/
theorem merge_dicts_get_none (upd : DictMap) :
    ∀ (base : DictMap) (k : String), dictGet upd k = none →
      dictGet (merge_dicts base upd) k = dictGet base k := by
  induction upd with
  | nil => intro base k _; rfl
  | cons kv rest ih =>
      intro base k hget
      obtain ⟨k', v'⟩ := kv
      by_cases h : k' = k
      · subst h; simp [dictGet] at hget
      · simp only [dictGet, if_neg h] at hget
        rw [merge_dicts_cons, ih _ k hget, dictGet_dictSet_ne]
        exact fun hh => h hh.symm

/-- A key present in a well-formed update (no duplicate keys) ends up
holding `mergeVal` of the base value (`None` when absent) and the update
value. -/
theorem merge_dicts_get_some (upd : DictMap) :
    ∀ (base : DictMap) (k : String) (v : Value),
      (upd.map Prod.fst).Nodup → dictGet upd k = some v →
      dictGet (merge_dicts base upd) k =
        some (mergeVal ((dictGet base k).getD Value.null) v) := by
  induction upd with
  | nil => intro base k v _ hget; simp [dictGet] at hget
  | cons kv rest ih =>
      intro base k v hnd hget
      obtain ⟨k', v'⟩ := kv
      simp only [List.map_cons, List.nodup_cons] at hnd
      by_cases h : k' = k
      · subst h
        simp only [dictGet, if_pos rfl, if_true, eq_self_iff_true, Option.some.injEq] at hget
        subst hget
        have hrest : dictGet rest k' = none :=
          dictGet_eq_none_of_not_mem_keys rest k' hnd.1
        rw [merge_dicts_cons, merge_dicts_get_none rest _ k' hrest,
          dictGet_dictSet_self]
      · simp only [dictGet, if_neg h] at hget
        rw [merge_dicts_cons, ih _ k v hnd.2 hget,
          dictGet_dictSet_ne _ _ _ _ (fun hh => h hh.symm)]

/-- `mergeVal` leaves the update value alone when the update value is
not a mapping. -/
theorem mergeVal_of_upd_not_map (bv v : Value) (h : ∀ um, v ≠ Value.map um) :
    mergeVal bv v = v := by
  cases bv <;> cases v <;> first
    | rfl
    | exact absurd rfl (h _)

/-- `mergeVal` leaves the update value alone when the base value is not
a mapping. -/
theorem mergeVal_of_base_not_map (bv v : Value) (h : ∀ bm, bv ≠ Value.map bm) :
    mergeVal bv v = v := by
  cases bv <;> cases v <;> first
    | rfl
    | exact absurd rfl (h _)

/-- C5: for all mappings `base` and `update` (the update well-formed,
i.e. without duplicate keys, as every Python dict is),
`merge_dicts base update` keeps the base value for every key only in
`base`, adopts the update value for every key only in `update`, merges
recursively under keys mapping to dicts on both sides, and takes the
update value wholesale on any other conflict (sequences included).  The
embedding is pure, so `base` itself is never modified and merging one
base against different updates cannot interfere — the function of the
two arguments is all there is. -/
theorem c5_merge_dicts_spec (base upd : DictMap)
    (hnd : (upd.map Prod.fst).Nodup) :
    (∀ k, dictGet upd k = none →
        dictGet (merge_dicts base upd) k = dictGet base k) ∧
    (∀ k v, dictGet upd k = some v → dictGet base k = none →
        dictGet (merge_dicts base upd) k = some v) ∧
    (∀ k bm um, dictGet upd k = some (Value.map um) →
        dictGet base k = some (Value.map bm) →
        dictGet (merge_dicts base upd) k =
          some (Value.map (merge_dicts bm um))) ∧
    (∀ k v bv, dictGet upd k = some v → dictGet base k = some bv →
        ((∀ um, v ≠ Value.map um) ∨ (∀ bm, bv ≠ Value.map bm)) →
        dictGet (merge_dicts base upd) k = some v) := by
  refine ⟨?_, ?_, ?_, ?_⟩
  · intro k h
    exact merge_dicts_get_none upd base k h
  · intro k v h hb
    rw [merge_dicts_get_some upd base k v hnd h, hb]
    cases v <;> rfl
  · intro k bm um h hb
    rw [merge_dicts_get_some upd base k _ hnd h, hb]
    rfl
  · intro k v bv h hb hcon
    rw [merge_dicts_get_some upd base k v hnd h, hb]
    rcases hcon with hv | hbv
    · rw [show (some bv).getD Value.null = bv from rfl,
        mergeVal_of_upd_not_map _ _ hv]
    · rw [show (some bv).getD Value.null = bv from rfl,
        mergeVal_of_base_not_map _ _ hbv]

/-- Witness for C5 at concrete dicts: a base-only key survives, an
update-only key is added, dict values merge recursively (`y` overridden,
`x` kept, `z` added), and a sequence conflict is replaced wholesale. -/
theorem c5_merge_dicts_spec_witness :
    dictGet (merge_dicts
      [("a", Value.num 1),
       ("d", Value.map [("x", Value.num 5), ("y", Value.num 6)]),
       ("s", Value.seq [Value.num 1, Value.num 2])]
      [("d", Value.map [("y", Value.num 9), ("z", Value.num 7)]),
       ("b", Value.num 2),
       ("s", Value.seq [Value.num 3])]) "a" = some (Value.num 1) ∧
    dictGet (merge_dicts
      [("a", Value.num 1),
       ("d", Value.map [("x", Value.num 5), ("y", Value.num 6)]),
       ("s", Value.seq [Value.num 1, Value.num 2])]
      [("d", Value.map [("y", Value.num 9), ("z", Value.num 7)]),
       ("b", Value.num 2),
       ("s", Value.seq [Value.num 3])]) "b" = some (Value.num 2) ∧
    dictGet (merge_dicts
      [("a", Value.num 1),
       ("d", Value.map [("x", Value.num 5), ("y", Value.num 6)]),
       ("s", Value.seq [Value.num 1, Value.num 2])]
      [("d", Value.map [("y", Value.num 9), ("z", Value.num 7)]),
       ("b", Value.num 2),
       ("s", Value.seq [Value.num 3])]) "d" =
      some (Value.map [("x", Value.num 5), ("y", Value.num 9), ("z", Value.num 7)]) ∧
    dictGet (merge_dicts
      [("a", Value.num 1),
       ("d", Value.map [("x", Value.num 5), ("y", Value.num 6)]),
       ("s", Value.seq [Value.num 1, Value.num 2])]
      [("d", Value.map [("y", Value.num 9), ("z", Value.num 7)]),
       ("b", Value.num 2),
       ("s", Value.seq [Value.num 3])]) "s" = some (Value.seq [Value.num 3]) := by
  have h := c5_merge_dicts_spec
    [("a", Value.num 1),
     ("d", Value.map [("x", Value.num 5), ("y", Value.num 6)]),
     ("s", Value.seq [Value.num 1, Value.num 2])]
    [("d", Value.map [("y", Value.num 9), ("z", Value.num 7)]),
     ("b", Value.num 2),
     ("s", Value.seq [Value.num 3])]
    (by decide)
  refine ⟨h.1 "a" rfl, h.2.1 "b" (Value.num 2) rfl rfl, ?_, ?_⟩
  · have h3 := h.2.2.1 "d" [("x", Value.num 5), ("y", Value.num 6)]
      [("y", Value.num 9), ("z", Value.num 7)] rfl rfl
    rw [show merge_dicts [("x", Value.num 5), ("y", Value.num 6)]
        [("y", Value.num 9), ("z", Value.num 7)] =
        [("x", Value.num 5), ("y", Value.num 9), ("z", Value.num 7)] from rfl] at h3
    exact h3
  · exact h.2.2.2 "s" (Value.seq [Value.num 3]) (Value.seq [Value.num 1, Value.num 2])
      rfl rfl (Or.inl (fun um hh => Value.noConfusion hh))

/-- C8 (the code slip): the loader's YAML suffix list, line 32, contains
`"yaml.in"` without its leading dot, so a file name like `"libyaml.in"`
— whose suffix is neither `.yml`, `.yml.in`, `.yaml`, `.yaml.in`,
`.json` nor `.json.in` — selects the YAML parser instead of raising the
unsupported-format `ValueError`.  The saver dispatch is as the claim
states and rejects this name. -/
theorem c8_load_format_yaml_in_slip :
    load_format "libyaml.in" = some FileFormat.yaml ∧
    strEndsWith "libyaml.in" ".yml" = false ∧
    strEndsWith "libyaml.in" ".yml.in" = false ∧
    strEndsWith "libyaml.in" ".yaml" = false ∧
    strEndsWith "libyaml.in" ".yaml.in" = false ∧
    strEndsWith "libyaml.in" ".json" = false ∧
    strEndsWith "libyaml.in" ".json.in" = false ∧
    save_format "libyaml.in" = none :=
  ⟨rfl, rfl, rfl, rfl, rfl, rfl, rfl, rfl⟩

/-- C10: a resolved module mapping without a `sources` key makes the
expansion fail with `KeyError("sources")` (line 83) before the module's
opt-out flag is consulted (line 88) — the hypothesis constrains only the
`sources` key, so the error strikes even when the module carries
`"x-multilib": false`, for any holder-level default, any variant set and
any recursion continuation; a holder whose module list starts with such
a module fails the same way. -/
theorem c10_missing_sources_keyError (fs : DictMap)
    (recur : DictMap → String → List (String × Value) → Except Err DictMap)
    (holder_dir holder_file base_dir : String) (holder_multilib : Value)
    (variants : List (String × Value)) (m : DictMap)
    (hno : dictGet m "sources" = none) :
    processModule fs recur holder_dir holder_file base_dir holder_multilib
        variants (Value.map m) = Except.error (Err.keyError "sources") ∧
    (∀ (fuel : Nat) (hf : String) (bd : Option String) (rest : List Value),
      multilibify fs (fuel + 1) [("modules", Value.seq (Value.map m :: rest))]
        hf bd (some variants) = Except.error (Err.keyError "sources")) := by
  constructor
  · simp [processModule, processResolvedModule, rewriteSources, hno]
  · intro fuel hf bd rest
    simp [multilibify, multilibifyCore, processModules, processModule,
      processResolvedModule, rewriteSources, hno, dictPop, dictGet, dictRemove,
      MULTILIB_PROP]

/-- Witness for C10: a module that even sets `"x-multilib": false` but
lacks `sources` is rejected with the `KeyError`. -/
theorem c10_missing_sources_keyError_witness :
    dictGet [("name", Value.str "a"), ("x-multilib", Value.bool false)] "sources"
      = none ∧
    processModule [] (fun h _ _ => Except.ok h) "" "m.json" "" (Value.bool true)
      [("native", Value.map [])]
      (Value.map [("name", Value.str "a"), ("x-multilib", Value.bool false)]) =
      Except.error (Err.keyError "sources") ∧
    multilibify [] 1
      [("modules", Value.seq
        [Value.map [("name", Value.str "a"), ("x-multilib", Value.bool false)]])]
      "m.json" none (some [("native", Value.map [])]) =
      Except.error (Err.keyError "sources") := by
  have h := c10_missing_sources_keyError []
    (fun h _ _ => Except.ok h) "" "m.json" "" (Value.bool true)
    [("native", Value.map [])]
    [("name", Value.str "a"), ("x-multilib", Value.bool false)] rfl
  exact ⟨rfl, h.1, h.2 0 "m.json" none []⟩

/-- C2: a module whose opt-out flag resolves falsy — the popped
module-level value when the key is present, the holder-level default
otherwise (`orig_module.pop(MULTILIB_PROP, holder_multilib)`, line 88) —
contributes exactly one module to the output sequence: the module with
its source paths rewritten and the flag removed, with no variant
override merged in and no renaming, whatever the active variant set. -/
theorem c2_optout_single_module (fs : DictMap)
    (recur : DictMap → String → List (String × Value) → Except Err DictMap)
    (holder_dir holder_file base_dir : String) (holder_multilib : Value)
    (variants : List (String × Value)) (m m1 : DictMap)
    (hrw : rewriteSources holder_file base_dir m = Except.ok m1)
    (hflag : ((dictGet m1 MULTILIB_PROP).getD holder_multilib).truthy = false) :
    processModule fs recur holder_dir holder_file base_dir holder_multilib
        variants (Value.map m) =
      Except.ok [Value.map (dictRemove m1 MULTILIB_PROP)] := by
  simp [processModule, processResolvedModule, hrw, dictPop, hflag]

/-- Witness for C2: a module with `"x-multilib": false` under a holder
whose default is enabled (module flag wins) is passed through alone,
with its path rebased and the flag dropped, while two variants are
active. -/
theorem c2_optout_single_module_witness :
    rewriteSources "sub/x.json" "" [("name", Value.str "a"),
      ("sources", Value.seq [Value.map [("path", Value.str "a.c")]]),
      ("x-multilib", Value.bool false)] =
      Except.ok [("name", Value.str "a"),
        ("sources", Value.seq [Value.map [("path", Value.str "sub/a.c")]]),
        ("x-multilib", Value.bool false)] ∧
    processModule [] (fun h _ _ => Except.ok h) "sub" "sub/x.json" ""
      (Value.bool true)
      [("native", Value.map []), ("compat", Value.map [])]
      (Value.map [("name", Value.str "a"),
        ("sources", Value.seq [Value.map [("path", Value.str "a.c")]]),
        ("x-multilib", Value.bool false)]) =
      Except.ok [Value.map [("name", Value.str "a"),
        ("sources", Value.seq [Value.map [("path", Value.str "sub/a.c")]])]] := by
  constructor
  · rfl
  · have h := c2_optout_single_module [] (fun h _ _ => Except.ok h)
      "sub" "sub/x.json" "" (Value.bool true)
      [("native", Value.map []), ("compat", Value.map [])]
      [("name", Value.str "a"),
       ("sources", Value.seq [Value.map [("path", Value.str "a.c")]]),
       ("x-multilib", Value.bool false)]
      [("name", Value.str "a"),
       ("sources", Value.seq [Value.map [("path", Value.str "sub/a.c")]]),
       ("x-multilib", Value.bool false)]
      rfl rfl
    exact h

/-! ## Claim C1: per-variant expansion -/

theorem variantsFind_native :
    variantsFind VARIANTS "native" = some ⟨"x-native-module", none⟩ := rfl

theorem variantsFind_compat :
    variantsFind VARIANTS "compat" = some ⟨"x-compat32-module", some "-32bit"⟩ := rfl

theorem suffixOf_native : suffixOf "native" = "" := rfl

theorem suffixOf_compat : suffixOf "compat" = "-32bit" := rfl

/-- The lines 92-97 loop on a module without nested `modules` (neither
in the module nor introduced by an override): one output per variant, in
variant order, each the deep merge of the override into the module
renamed with the variant's suffix. -/
theorem processVariants_no_nested
    (recur : DictMap → String → List (String × Value) → Except Err DictMap)
    (module_file : String) (m2 : DictMap) (nameStr : String)
    (hname : dictGet m2 "name" = some (Value.str nameStr))
    (hnomod : dictGet m2 "modules" = none) :
    ∀ (vs : List (String × DictMap)),
      (∀ x ∈ vs, (x.1 = "native" ∨ x.1 = "compat") ∧ dictGet x.2 "modules" = none) →
      processVariants recur module_file m2 (vs.map (fun x => (x.1, Value.map x.2))) =
        Except.ok (vs.map (fun x =>
          Value.map (dictSet (merge_dicts m2 x.2) "name"
            (Value.str (nameStr ++ suffixOf x.1))))) := by
  intro vs
  induction vs with
  | nil => intro _; rfl
  | cons x rest ih =>
      intro hvs
      obtain ⟨v, props⟩ := x
      obtain ⟨hv, hpm⟩ := hvs (v, props) (List.mem_cons_self _ _)
      have hrest := fun y hy => hvs y (List.mem_cons_of_mem _ hy)
      have hmerged : dictGet (merge_dicts m2 props) "modules" = none := by
        rw [merge_dicts_get_none props m2 "modules" hpm]
        exact hnomod
      have hren : ∀ nv : Value,
          dictGet (dictSet (merge_dicts m2 props) "name" nv) "modules" = none := by
        intro nv
        rw [dictGet_dictSet_ne _ _ _ _ (by decide), hmerged]
      rcases hv with rfl | rfl
      · simp only [List.map_cons, processVariants, exceptBind_ok, hname,
          variantsFind_native, hren, Option.isSome_none, Bool.false_eq_true,
          if_false, ih hrest, exceptPure]
        rfl
      · simp only [List.map_cons, processVariants, exceptBind_ok, hname,
          variantsFind_compat, hren, Option.isSome_none, Bool.false_eq_true,
          if_false, ih hrest, exceptPure]
        rfl

/-- C1 as frozen is false: a produced module that itself contains nested
`modules` is not merely "the deep merge of the variant's override with
the name set" — line 96 additionally expands it recursively, which here
strips the nested module's `"x-multilib": false` flag.  The single
`native` variant with an empty override turns the module into something
different from the merged-and-renamed module (which would be the module
itself). -/
theorem c1_counterexample :
    multilibify [] 2
      [("modules", Value.seq [Value.map
        [("name", Value.str "a"), ("sources", Value.seq []),
         ("modules", Value.seq [Value.map
           [("name", Value.str "b"), ("sources", Value.seq []),
            ("x-multilib", Value.bool false)]])]])]
      "m.json" none (some [("native", Value.map [])]) =
    Except.ok [("modules", Value.seq [Value.map
      [("name", Value.str "a"), ("sources", Value.seq []),
       ("modules", Value.seq [Value.map
         [("name", Value.str "b"), ("sources", Value.seq [])]])]])] ∧
    Value.map
      [("name", Value.str "a"), ("sources", Value.seq []),
       ("modules", Value.seq [Value.map
         [("name", Value.str "b"), ("sources", Value.seq [])]])] ≠
    Value.map (dictSet (merge_dicts
      [("name", Value.str "a"), ("sources", Value.seq []),
       ("modules", Value.seq [Value.map
         [("name", Value.str "b"), ("sources", Value.seq []),
          ("x-multilib", Value.bool false)]])] []) "name"
      (Value.str (pyFormatStr (Value.str "a") ++ suffixOf "native"))) := by
  constructor
  · rfl
  · intro h
    rw [show dictSet (merge_dicts
        [("name", Value.str "a"), ("sources", Value.seq []),
         ("modules", Value.seq [Value.map
           [("name", Value.str "b"), ("sources", Value.seq []),
            ("x-multilib", Value.bool false)]])] []) "name"
        (Value.str (pyFormatStr (Value.str "a") ++ suffixOf "native")) =
        [("name", Value.str "a"), ("sources", Value.seq []),
         ("modules", Value.seq [Value.map
           [("name", Value.str "b"), ("sources", Value.seq []),
            ("x-multilib", Value.bool false)]])] from rfl] at h
    simp at h

/-- C1 amended: a module whose resolved opt-out flag is truthy and whose
merged result has no nested `modules` key (no `modules` in the rewritten
module nor in any active override) contributes exactly `vs.length`
output modules, the i-th being the deep merge of the i-th variant's
override into the resolved module (source paths rewritten, flag popped)
with its name set to the original name concatenated with that variant's
suffix — the empty string for `native`, which declares none. -/
theorem c1_variant_expansion (fs : DictMap)
    (recur : DictMap → String → List (String × Value) → Except Err DictMap)
    (holder_dir holder_file base_dir : String) (holder_multilib : Value)
    (vs : List (String × DictMap)) (m m1 : DictMap) (nameStr : String)
    (hrw : rewriteSources holder_file base_dir m = Except.ok m1)
    (hflag : ((dictGet m1 MULTILIB_PROP).getD holder_multilib).truthy = true)
    (hname : dictGet m1 "name" = some (Value.str nameStr))
    (hnomod : dictGet m1 "modules" = none)
    (hvs : ∀ x ∈ vs, (x.1 = "native" ∨ x.1 = "compat") ∧
        dictGet x.2 "modules" = none) :
    processModule fs recur holder_dir holder_file base_dir holder_multilib
        (vs.map (fun x => (x.1, Value.map x.2))) (Value.map m) =
      Except.ok (vs.map (fun x =>
        Value.map (dictSet (merge_dicts (dictRemove m1 MULTILIB_PROP) x.2) "name"
          (Value.str (nameStr ++ suffixOf x.1))))) ∧
    (vs.map (fun x =>
        Value.map (dictSet (merge_dicts (dictRemove m1 MULTILIB_PROP) x.2) "name"
          (Value.str (nameStr ++ suffixOf x.1))))).length = vs.length := by
  constructor
  · have hname2 : dictGet (dictRemove m1 MULTILIB_PROP) "name" =
        some (Value.str nameStr) := by
      rw [dictGet_dictRemove_ne _ _ _ (by decide), hname]
    have hnm2 : dictGet (dictRemove m1 MULTILIB_PROP) "modules" = none := by
      rw [dictGet_dictRemove_ne _ _ _ (by decide), hnomod]
    simp only [processModule, processResolvedModule, exceptPure, exceptBind_ok,
      hrw, dictPop, hflag, Bool.true_eq_false, if_false]
    exact processVariants_no_nested recur holder_file _ nameStr hname2 hnm2 vs hvs
  · simp

/-- Witness for C1 (amended): a flat module under the default-enabled
holder, expanded against `native` (override adding a key) and `compat`:
exactly two outputs, `foo` with the override merged in and `foo-32bit`. -/
theorem c1_variant_expansion_witness :
    processModule [] (fun h _ _ => Except.ok h) "" "m.json" "" (Value.bool true)
      [("native", Value.map [("x-new", Value.num 1)]), ("compat", Value.map [])]
      (Value.map [("name", Value.str "foo"),
        ("sources", Value.seq [Value.map [("path", Value.str "foo.c")]])]) =
      Except.ok
        [Value.map [("name", Value.str "foo"),
          ("sources", Value.seq [Value.map [("path", Value.str "foo.c")]]),
          ("x-new", Value.num 1)],
         Value.map [("name", Value.str "foo-32bit"),
          ("sources", Value.seq [Value.map [("path", Value.str "foo.c")]])]] := by
  have h := c1_variant_expansion [] (fun h _ _ => Except.ok h) "" "m.json" ""
    (Value.bool true)
    [("native", [("x-new", Value.num 1)]), ("compat", [])]
    [("name", Value.str "foo"),
     ("sources", Value.seq [Value.map [("path", Value.str "foo.c")]])]
    [("name", Value.str "foo"),
     ("sources", Value.seq [Value.map [("path", Value.str "foo.c")]])]
    "foo" rfl rfl rfl rfl
    (by
      intro x hx
      rcases List.mem_cons.mp hx with rfl | hx2
      · exact ⟨Or.inl rfl, rfl⟩
      · rcases List.mem_cons.mp hx2 with rfl | hx3
        · exact ⟨Or.inr rfl, rfl⟩
        · cases hx3)
  exact h.1

/-! ## Claim C4: expansion under an empty variant set -/

/-- C4 as frozen is false: with an empty variant set an expansion-enabled
module does not reappear at all — the lines 92-97 loop runs zero times
and contributes nothing, so the holder comes back with an empty module
list instead of its one module. -/
theorem c4_counterexample :
    multilibify [] 1
      [("modules", Value.seq [Value.map
        [("name", Value.str "a"), ("sources", Value.seq [])]])]
      "m.json" none (some []) =
      Except.ok [("modules", Value.seq [])] ∧
    Value.map [("name", Value.str "a"), ("sources", Value.seq [])] ∉
      ([] : List Value) := by
  exact ⟨rfl, by simp⟩

/-- C4 amended: expanding with an empty variant set removes opt-out
flags and rewrites source paths, but a module reappears (exactly once,
otherwise unchanged) only when its resolved opt-out flag is falsy; a
module whose flag resolves truthy yields zero output modules (it is
dropped). -/
theorem c4_empty_variant_set (fs : DictMap)
    (recur : DictMap → String → List (String × Value) → Except Err DictMap)
    (holder_dir holder_file base_dir : String) (holder_multilib : Value)
    (m m1 : DictMap)
    (hrw : rewriteSources holder_file base_dir m = Except.ok m1) :
    processModule fs recur holder_dir holder_file base_dir holder_multilib
        [] (Value.map m) =
      Except.ok
        (if ((dictGet m1 MULTILIB_PROP).getD holder_multilib).truthy = false
         then [Value.map (dictRemove m1 MULTILIB_PROP)]
         else []) := by
  simp only [processModule, processResolvedModule, exceptPure, exceptBind_ok,
    hrw, dictPop]
  by_cases h : ((dictGet m1 MULTILIB_PROP).getD holder_multilib).truthy = false
  · simp [h]
  · simp [h, processVariants]

/-- Witness for C4 (amended): under the default-enabled holder, an
enabled module vanishes under the empty variant set while an opted-out
sibling survives once, source paths rewritten and flag removed; the
holder round-trips accordingly. -/
theorem c4_empty_variant_set_witness :
    processModule [] (fun h _ _ => Except.ok h) "" "m.json" "" (Value.bool true)
      [] (Value.map [("name", Value.str "a"),
        ("sources", Value.seq [Value.map [("path", Value.str "a.c")]])]) =
      Except.ok [] ∧
    processModule [] (fun h _ _ => Except.ok h) "" "m.json" "" (Value.bool true)
      [] (Value.map [("name", Value.str "b"),
        ("sources", Value.seq [Value.map [("path", Value.str "b.c")]]),
        ("x-multilib", Value.bool false)]) =
      Except.ok [Value.map [("name", Value.str "b"),
        ("sources", Value.seq [Value.map [("path", Value.str "b.c")]])]] := by
  constructor
  · exact c4_empty_variant_set [] (fun h _ _ => Except.ok h) "" "m.json" ""
      (Value.bool true)
      [("name", Value.str "a"),
       ("sources", Value.seq [Value.map [("path", Value.str "a.c")]])]
      [("name", Value.str "a"),
       ("sources", Value.seq [Value.map [("path", Value.str "a.c")]])] rfl
  · exact c4_empty_variant_set [] (fun h _ _ => Except.ok h) "" "m.json" ""
      (Value.bool true)
      [("name", Value.str "b"),
       ("sources", Value.seq [Value.map [("path", Value.str "b.c")]]),
       ("x-multilib", Value.bool false)]
      [("name", Value.str "b"),
       ("sources", Value.seq [Value.map [("path", Value.str "b.c")]]),
       ("x-multilib", Value.bool false)] rfl

/-! ## Path lemmas -/

theorem splitSlash_ne_nil : ∀ l : List Char, splitSlash l ≠ [] := by
  intro l
  cases l with
  | nil => simp [splitSlash]
  | cons c rest =>
      by_cases hc : c = '/'
      · simp [splitSlash, hc]
      · simp only [splitSlash, if_neg hc]
        cases h : splitSlash rest <;> simp

theorem splitSlash_append_slash :
    ∀ a b : List Char, splitSlash (a ++ '/' :: b) = splitSlash a ++ splitSlash b := by
  intro a
  induction a with
  | nil => intro b; simp [splitSlash]
  | cons c rest ih =>
      intro b
      by_cases hc : c = '/'
      · subst hc
        show ([] :: splitSlash (rest ++ '/' :: b)) =
          ([] :: splitSlash rest) ++ splitSlash b
        rw [ih]
        rfl
      · cases h : splitSlash rest with
        | nil => exact absurd h (splitSlash_ne_nil rest)
        | cons h0 t0 =>
            have hl : splitSlash (c :: (rest ++ '/' :: b)) =
                (c :: h0) :: (t0 ++ splitSlash b) := by
              simp only [splitSlash, if_neg hc, ih, h, List.cons_append]
            have hr : splitSlash (c :: rest) = (c :: h0) :: t0 := by
              simp only [splitSlash, if_neg hc, h]
            rw [List.cons_append, hl, hr]
            rfl

theorem splitSlash_no_slash : ∀ c : List Char, '/' ∉ c → splitSlash c = [c] := by
  intro c
  induction c with
  | nil => intro _; rfl
  | cons x xs ih =>
      intro h
      have hx : ¬(x = '/') := fun hh => h (hh ▸ List.mem_cons_self _ _)
      have hxs : '/' ∉ xs := fun hm => h (List.mem_cons_of_mem _ hm)
      simp only [splitSlash, if_neg hx, ih hxs]

theorem joinParts_cons_ne (p : List Char) (ps : List (List Char)) (h : ps ≠ []) :
    joinParts (p :: ps) = p ++ '/' :: joinParts ps := by
  cases ps with
  | nil => exact absurd rfl h
  | cons q qs => rfl

theorem splitSlash_joinParts :
    ∀ ps : List (List Char), ps ≠ [] → (∀ c ∈ ps, '/' ∉ c) →
      splitSlash (joinParts ps) = ps := by
  intro ps
  induction ps with
  | nil => intro h _; exact absurd rfl h
  | cons p rest ih =>
      intro _ hall
      cases rest with
      | nil => exact splitSlash_no_slash p (hall p (List.mem_cons_self _ _))
      | cons q qs =>
          rw [joinParts_cons_ne p (q :: qs) (by simp),
            splitSlash_append_slash,
            splitSlash_no_slash p (hall p (List.mem_cons_self _ _)),
            ih (by simp) (fun c hc => hall c (List.mem_cons_of_mem _ hc))]
          rfl

theorem foldl_normStep_clean :
    ∀ (cs : List (List Char)), (∀ c ∈ cs, goodComp c) →
      ∀ acc, List.foldl normStep acc cs = acc ++ cs := by
  intro cs
  induction cs with
  | nil => intro _ acc; simp
  | cons c rest ih =>
      intro hall acc
      obtain ⟨h1, _, h3, h4⟩ := hall c (List.mem_cons_self _ _)
      have hstep : normStep acc c = acc ++ [c] := by
        simp only [normStep, if_neg (fun hor => Or.elim hor h1 h3), if_neg h4]
      rw [List.foldl_cons, hstep,
        ih (fun d hd => hall d (List.mem_cons_of_mem _ hd)) (acc ++ [c])]
      simp

theorem normParts_clean (cs : List (List Char)) (h : ∀ c ∈ cs, goodComp c) :
    normParts cs = cs := by
  unfold normParts
  rw [foldl_normStep_clean cs h []]
  rfl

theorem normParts_append_clean (xs cs : List (List Char))
    (h : ∀ c ∈ cs, goodComp c) :
    normParts (xs ++ cs) = normParts xs ++ cs := by
  unfold normParts
  rw [List.foldl_append, foldl_normStep_clean cs h]

theorem commonLen_self_append :
    ∀ xs ys : List (List Char), commonLen xs (xs ++ ys) = xs.length := by
  intro xs
  induction xs with
  | nil => intro ys; cases ys <;> rfl
  | cons x rest ih => intro ys; simp [commonLen, ih]

theorem absParts_mk (l : List Char) : absParts (String.mk l) = normParts (splitSlash l) := rfl

theorem absParts_joinParts (cs : List (List Char)) (hne : cs ≠ [])
    (h : ∀ c ∈ cs, goodComp c) :
    absParts (String.mk (joinParts cs)) = cs := by
  rw [absParts_mk, splitSlash_joinParts cs hne (fun c hc => (h c hc).2.1)]
  exact normParts_clean cs h

theorem absParts_append_slash_clean (l : List Char) (cs : List (List Char))
    (hne : cs ≠ []) (h : ∀ c ∈ cs, goodComp c) :
    absParts (String.mk (l ++ '/' :: joinParts cs)) =
      absParts (String.mk l) ++ cs := by
  rw [absParts_mk, absParts_mk,
    splitSlash_append_slash, splitSlash_joinParts cs hne (fun c hc => (h c hc).2.1)]
  exact normParts_append_clean _ cs h

theorem relpath_append_clean (path start : String) (cs : List (List Char))
    (hne : cs ≠ []) (habs : absParts path = absParts start ++ cs) :
    relpath path start = String.mk (joinParts cs) := by
  simp only [relpath, habs, commonLen_self_append, Nat.sub_self,
    List.replicate_zero, List.nil_append, List.drop_left]
  rw [if_neg hne]

theorem headSlash_joinParts (cs : List (List Char)) (hne : cs ≠ [])
    (h : ∀ c ∈ cs, goodComp c) :
    headSlash (String.mk (joinParts cs)) = false := by
  cases cs with
  | nil => exact absurd rfl hne
  | cons c rest =>
      obtain ⟨h1, h2, _, _⟩ := h c (List.mem_cons_self _ _)
      cases c with
      | nil => exact absurd rfl h1
      | cons x xs =>
          have hx : ¬(x = '/') := fun hh => h2 (hh ▸ List.mem_cons_self _ _)
          cases rest with
          | nil => simp [joinParts, headSlash, hx]
          | cons q qs =>
              rw [joinParts_cons_ne _ _ (by simp)]
              simp [headSlash, hx]

/-- The key `relpath`/`join` interplay behind claims C3 and C6: joining
a clean relative path onto any directory and re-relativising against
that same directory gives the path back. -/
theorem relpath_joinPath_clean (bd : String) (cs : List (List Char))
    (hne : cs ≠ []) (h : ∀ c ∈ cs, goodComp c) :
    relpath (joinPath bd (String.mk (joinParts cs))) bd =
      String.mk (joinParts cs) := by
  have hhead := headSlash_joinParts cs hne h
  unfold joinPath
  rw [hhead]
  simp only [Bool.false_eq_true, if_false]
  by_cases hempty : bd.data = []
  · simp only [hempty, if_pos (Or.inl rfl), List.nil_append]
    apply relpath_append_clean
    · exact hne
    · have hbd : absParts bd = [] := by
        have : bd = String.mk [] := by
          cases bd with
          | mk d => simp at hempty; rw [hempty]
        rw [this, absParts_mk]
        rfl
      rw [hbd, List.nil_append]
      exact absParts_joinParts cs hne h
  · by_cases hlast : lastSlash bd = true
    · simp only [if_pos (Or.inr hlast)]
      -- bd.data ends in '/': peel it off
      have hbdne : bd.data ≠ [] := hempty
      obtain ⟨init, hinit⟩ : ∃ init, bd.data = init ++ ['/'] := by
        have hgl : bd.data.getLast? = some '/' := by
          unfold lastSlash at hlast
          cases hgl2 : bd.data.getLast? with
          | none => rw [hgl2] at hlast; simp at hlast
          | some c =>
              rw [hgl2] at hlast
              simp only [decide_eq_true_eq] at hlast
              rw [hlast]
        refine ⟨bd.data.dropLast, ?_⟩
        have h1 := List.dropLast_append_getLast hbdne
        have h2 : bd.data.getLast hbdne = '/' := by
          have h3 := List.getLast?_eq_getLast bd.data hbdne
          rw [hgl] at h3
          exact (Option.some_inj.mp h3).symm
        rw [h2] at h1
        exact h1.symm
      have hperm : bd.data ++ (joinParts cs) = init ++ '/' :: joinParts cs := by
        rw [hinit, List.append_assoc]
        rfl
      rw [hperm]
      apply relpath_append_clean _ _ cs hne
      rw [absParts_append_slash_clean init cs hne h]
      have : absParts bd = absParts (String.mk init) := by
        have hb2 : bd = String.mk (init ++ ['/']) := by
          cases bd with
          | mk d => simp only at hinit; rw [hinit]
        rw [hb2, absParts_mk, absParts_mk]
        rw [show init ++ ['/'] = init ++ '/' :: [] from rfl,
          splitSlash_append_slash]
        unfold normParts
        rw [List.foldl_append]
        rfl
      rw [this]
    · rw [if_neg (fun hor => Or.elim hor hempty hlast)]
      apply relpath_append_clean _ _ cs hne
      rw [absParts_append_slash_clean bd.data cs hne h]

theorem dictSet_self_of_get (m : DictMap) (k : String) (v : Value)
    (h : dictGet m k = some v) : dictSet m k v = m := by
  induction m with
  | nil => simp [dictGet] at h
  | cons kv rest ih =>
      obtain ⟨k', v'⟩ := kv
      by_cases hk : k' = k
      · subst hk
        simp only [dictGet, if_pos rfl, if_true, eq_self_iff_true,
          Option.some.injEq] at h
        simp [dictSet, h]
      · simp only [dictGet, if_neg hk] at h
        simp [dictSet, hk, ih h]

/-! ## Claim C6: idempotence of source-path rewriting -/

/-- C6: a source path already correctly expressed relative to `base_dir`
— a nonempty clean relative path (components nonempty, slash-free, no
`.`/`..`), exactly the shape `os.path.relpath` emits for paths under
`base_dir` — is left unchanged when the rewrite step of lines 84-86 is
applied again through the same `base_dir` (the module file now sitting
in `base_dir`, as it does when a produced manifest is re-processed): the
join with the module file's directory followed by `relpath` against
`base_dir` gives the same path, and the source mapping is unchanged. -/
theorem c6_rewrite_idempotent (module_file base_dir : String) (sm : DictMap)
    (cs : List (List Char))
    (hdir : dirname module_file = base_dir)
    (hne : cs ≠ []) (hcs : ∀ c ∈ cs, goodComp c)
    (hp : dictGet sm "path" = some (Value.str (String.mk (joinParts cs)))) :
    rewriteSource module_file base_dir (Value.map sm) =
      Except.ok (Value.map sm) := by
  simp only [rewriteSource, hp]
  rw [hdir, relpath_joinPath_clean base_dir cs hne hcs,
    dictSet_self_of_get sm "path" _ hp]

/-- Witness for C6 at the concrete re-processing situation: the already
rebased path `lib/src.c` under `base_dir = "sub"` survives the rewrite
untouched (other keys of the source mapping too). -/
theorem c6_rewrite_idempotent_witness :
    rewriteSource "sub/x.json" "sub"
      (Value.map [("path", Value.str "lib/src.c"), ("sha", Value.num 5)]) =
      Except.ok
        (Value.map [("path", Value.str "lib/src.c"), ("sha", Value.num 5)]) := by
  have h := c6_rewrite_idempotent "sub/x.json" "sub"
    [("path", Value.str "lib/src.c"), ("sha", Value.num 5)]
    ["lib".data, "src.c".data]
    rfl (by decide) (by decide) rfl
  exact h

/-! ## Claim C9: removal of the metadata keys -/

/-- Every module the lines 92-97 loop emits carries no top-level opt-out
flag, provided the overrides carry none and the recursion continuation
guarantees the same for its outputs. -/
theorem processVariants_flagfree
    (recur : DictMap → String → List (String × Value) → Except Err DictMap)
    (hrec : ∀ h2 f v out2, propsFlagFree v → recur h2 f v = Except.ok out2 →
        dictGet out2 MULTILIB_PROP = none)
    (module_file : String) (m2 : DictMap)
    (hm2 : dictGet m2 MULTILIB_PROP = none) :
    ∀ (vs : List (String × Value)) (out : List Value),
      propsFlagFree vs →
      processVariants recur module_file m2 vs = Except.ok out →
      ∀ my : DictMap, Value.map my ∈ out → dictGet my MULTILIB_PROP = none := by
  intro vs
  induction vs with
  | nil =>
      intro out _ hok my hmem
      simp only [processVariants] at hok
      cases hok
      cases hmem
  | cons x rest ih =>
      intro out hvs hok my hmem
      obtain ⟨v, props⟩ := x
      have hhead := hvs (v, props) (List.mem_cons_self _ _)
      have hrest : propsFlagFree rest := fun y hy pm hpm =>
        hvs y (List.mem_cons_of_mem _ hy) pm hpm
      cases props with
      | str s => simp [processVariants] at hok
      | num n => simp [processVariants] at hok
      | bool b => simp [processVariants] at hok
      | null => simp [processVariants] at hok
      | seq l => simp [processVariants] at hok
      | map pm =>
          have hpmf : dictGet pm MULTILIB_PROP = none := hhead pm rfl
          simp only [processVariants, exceptPure, exceptBind_ok] at hok
          cases hname : dictGet m2 "name" with
          | none => rw [hname] at hok; simp at hok
          | some nv =>
              rw [hname] at hok
              simp only [exceptBind_ok] at hok
              cases hvf : variantsFind VARIANTS v with
              | none => rw [hvf] at hok; simp at hok
              | some o =>
                  rw [hvf] at hok
                  simp only [exceptBind_ok] at hok
                  set renamed := dictSet (merge_dicts m2 pm) "name"
                    (Value.str (pyFormatStr nv ++ o.nameSuffix.getD "")) with hrdef
                  have hrenflag : dictGet renamed MULTILIB_PROP = none := by
                    rw [hrdef, dictGet_dictSet_ne _ _ _ _ (by decide),
                      merge_dicts_get_none pm m2 MULTILIB_PROP hpmf]
                    exact hm2
                  have hsingle : propsFlagFree [(v, Value.map pm)] := by
                    intro y hy pm2 hpm2
                    rcases List.mem_cons.mp hy with rfl | hy2
                    · simp only at hpm2
                      cases hpm2
                      exact hpmf
                    · cases hy2
                  by_cases hif : (dictGet renamed "modules").isSome = true
                  · rw [if_pos hif] at hok
                    cases hrc : recur renamed module_file [(v, Value.map pm)] with
                    | error e => rw [hrc] at hok; simp at hok
                    | ok nm =>
                        rw [hrc] at hok
                        simp only [exceptBind_ok] at hok
                        cases hpr : processVariants recur module_file m2 rest with
                        | error e => rw [hpr] at hok; simp at hok
                        | ok rest2 =>
                            rw [hpr] at hok
                            simp only [exceptBind_ok, exceptPure] at hok
                            cases hok
                            rcases List.mem_cons.mp hmem with heq | hm3
                            · have hmn : my = nm := by injection heq
                              subst hmn
                              exact hrec renamed module_file _ my hsingle hrc
                            · exact ih rest2 hrest hpr my hm3
                  · rw [if_neg hif] at hok
                    cases hpr : processVariants recur module_file m2 rest with
                    | error e => rw [hpr] at hok; simp at hok
                    | ok rest2 =>
                        rw [hpr] at hok
                        simp only [exceptBind_ok, exceptPure] at hok
                        cases hok
                        rcases List.mem_cons.mp hmem with heq | hm3
                        · have hmn : my = renamed := by injection heq
                          subst hmn
                          exact hrenflag
                        · exact ih rest2 hrest hpr my hm3

/-- Every module emitted for one already-resolved module document
carries no top-level opt-out flag. -/
theorem processResolvedModule_flagfree
    (recur : DictMap → String → List (String × Value) → Except Err DictMap)
    (hrec : ∀ h2 f v out2, propsFlagFree v → recur h2 f v = Except.ok out2 →
        dictGet out2 MULTILIB_PROP = none)
    (bd : String) (hm : Value) (variants : List (String × Value))
    (hvs : propsFlagFree variants) :
    ∀ (mf : String) (rdoc : Value) (out : List Value),
      processResolvedModule recur bd hm variants mf rdoc = Except.ok out →
      ∀ my : DictMap, Value.map my ∈ out → dictGet my MULTILIB_PROP = none := by
  intro mf rdoc out hok my hmem
  cases rdoc with
  | str s => simp [processResolvedModule] at hok
  | num n => simp [processResolvedModule] at hok
  | bool b => simp [processResolvedModule] at hok
  | null => simp [processResolvedModule] at hok
  | seq l => simp [processResolvedModule] at hok
  | map mm =>
      simp only [processResolvedModule, exceptPure, exceptBind_ok] at hok
      cases hrw : rewriteSources mf bd mm with
      | error e => rw [hrw] at hok; simp at hok
      | ok m1 =>
          rw [hrw] at hok
          simp only [exceptBind_ok, dictPop] at hok
          by_cases hfl : ((dictGet m1 MULTILIB_PROP).getD hm).truthy = false
          · rw [if_pos hfl] at hok
            have hok2 : Except.ok [Value.map (dictRemove m1 MULTILIB_PROP)] =
                Except.ok out := hok
            cases hok2
            rcases List.mem_cons.mp hmem with heq | hnil
            · have hmn : my = dictRemove m1 MULTILIB_PROP := by injection heq
              subst hmn
              exact dictGet_dictRemove_self m1 MULTILIB_PROP
            · cases hnil
          · rw [if_neg hfl] at hok
            exact processVariants_flagfree recur hrec mf
              (dictRemove m1 MULTILIB_PROP)
              (dictGet_dictRemove_self m1 MULTILIB_PROP) variants out hvs hok my hmem

/-- The same for the full per-module body, string module entries
included. -/
theorem processModule_flagfree (fs : DictMap)
    (recur : DictMap → String → List (String × Value) → Except Err DictMap)
    (hrec : ∀ h2 f v out2, propsFlagFree v → recur h2 f v = Except.ok out2 →
        dictGet out2 MULTILIB_PROP = none)
    (hd hf bd : String) (hm : Value) (variants : List (String × Value))
    (hvs : propsFlagFree variants) :
    ∀ (om : Value) (out : List Value),
      processModule fs recur hd hf bd hm variants om = Except.ok out →
      ∀ my : DictMap, Value.map my ∈ out → dictGet my MULTILIB_PROP = none := by
  intro om out hok my hmem
  cases om with
  | str s =>
      simp only [processModule, exceptPure, exceptBind_ok] at hok
      cases hld : load_dict_file fs (joinPath hd s) with
      | error e => rw [hld] at hok; simp at hok
      | ok d =>
          rw [hld] at hok
          simp only [exceptBind_ok, exceptPure] at hok
          exact processResolvedModule_flagfree recur hrec bd hm variants hvs
            _ d out hok my hmem
  | num n =>
      simp only [processModule, exceptPure, exceptBind_ok] at hok
      exact processResolvedModule_flagfree recur hrec bd hm variants hvs
        hf _ out hok my hmem
  | bool b =>
      simp only [processModule, exceptPure, exceptBind_ok] at hok
      exact processResolvedModule_flagfree recur hrec bd hm variants hvs
        hf _ out hok my hmem
  | null =>
      simp only [processModule, exceptPure, exceptBind_ok] at hok
      exact processResolvedModule_flagfree recur hrec bd hm variants hvs
        hf _ out hok my hmem
  | seq l =>
      simp only [processModule, exceptPure, exceptBind_ok] at hok
      exact processResolvedModule_flagfree recur hrec bd hm variants hvs
        hf _ out hok my hmem
  | map mm =>
      simp only [processModule, exceptPure, exceptBind_ok] at hok
      exact processResolvedModule_flagfree recur hrec bd hm variants hvs
        hf _ out hok my hmem

/-- Lift to the whole module loop. -/
theorem processModules_flagfree (pm : Value → Except Err (List Value))
    (hpm : ∀ om out, pm om = Except.ok out → ∀ my : DictMap,
        Value.map my ∈ out → dictGet my MULTILIB_PROP = none) :
    ∀ (l : List Value) (out : List Value),
      processModules pm l = Except.ok out →
      ∀ my : DictMap, Value.map my ∈ out → dictGet my MULTILIB_PROP = none := by
  intro l
  induction l with
  | nil =>
      intro out hok my hmem
      simp only [processModules] at hok
      cases hok
      cases hmem
  | cons x rest ih =>
      intro out hok my hmem
      simp only [processModules] at hok
      cases hx : pm x with
      | error e => rw [hx] at hok; simp at hok
      | ok outs =>
          rw [hx] at hok
          simp only [exceptBind_ok] at hok
          cases hr : processModules pm rest with
          | error e => rw [hr] at hok; simp at hok
          | ok rest2 =>
              rw [hr] at hok
              simp only [exceptBind_ok, exceptPure] at hok
              cases hok
              rcases List.mem_append.mp hmem with h1 | h2
              · exact hpm x outs hx my h1
              · exact ih rest2 hr my h2

/-- The holder that comes out of the lines 66-70 extraction is the input
holder with both variant extraction properties removed. -/
theorem resolveVariants_holder (fs : DictMap) (hd : String) (h : DictMap)
    (vs : List (String × Value)) (h2 : DictMap)
    (hres : resolveVariants fs hd h = Except.ok (vs, h2)) :
    h2 = dictRemove (dictRemove h "x-native-module") "x-compat32-module" := by
  simp only [resolveVariants, VARIANTS, resolveVariantsAux, exceptPure,
    exceptBind_ok] at hres
  cases he1 : resolveProp fs hd (dictPop h "x-native-module" (Value.map [])).1 with
  | error e => rw [he1] at hres; simp at hres
  | ok pv1 =>
      rw [he1] at hres
      simp only [exceptBind_ok] at hres
      cases he2 : resolveProp fs hd
          (dictPop (dictPop h "x-native-module" (Value.map [])).2
            "x-compat32-module" (Value.map [])).1 with
      | error e => rw [he2] at hres; simp at hres
      | ok pv2 =>
          rw [he2] at hres
          simp only [exceptBind_ok, exceptPure, Except.ok.injEq,
            Prod.mk.injEq] at hres
          exact hres.2.symm

/-- Flag and key bookkeeping for `multilibifyCore`: the output holder
has no opt-out flag, its other keys besides `modules` are exactly those
of the input holder (flag removed), and none of the emitted modules
carries the flag. -/
theorem multilibifyCore_flagfree (fs : DictMap)
    (recur : DictMap → String → List (String × Value) → Except Err DictMap)
    (hrec : ∀ h2 f v out2, propsFlagFree v → recur h2 f v = Except.ok out2 →
        dictGet out2 MULTILIB_PROP = none)
    (hd hf bd : String) (variants : List (String × Value)) (h2 out : DictMap)
    (hvs : propsFlagFree variants)
    (hok : multilibifyCore fs recur hd hf bd variants h2 = Except.ok out) :
    dictGet out MULTILIB_PROP = none ∧
    (∀ k, k ≠ "modules" → k ≠ MULTILIB_PROP → dictGet out k = dictGet h2 k) ∧
    (∀ ms, dictGet out "modules" = some (Value.seq ms) →
        ∀ my : DictMap, Value.map my ∈ ms → dictGet my MULTILIB_PROP = none) := by
  simp only [multilibifyCore, dictPop] at hok
  cases hmod : dictGet (dictRemove h2 MULTILIB_PROP) "modules" with
  | none => rw [hmod] at hok; simp at hok
  | some v =>
      rw [hmod] at hok
      simp only [exceptBind_ok] at hok
      cases v with
      | str s => simp at hok
      | num n => simp at hok
      | bool b => simp at hok
      | null => simp at hok
      | map mm => simp at hok
      | seq l =>
          simp only [exceptBind_ok, exceptPure] at hok
          cases hpms : processModules
              (processModule fs recur hd hf bd
                ((dictGet h2 MULTILIB_PROP).getD (Value.bool true)) variants) l with
          | error e => rw [hpms] at hok; simp at hok
          | ok modules =>
              rw [hpms] at hok
              simp only [exceptBind_ok, exceptPure, Except.ok.injEq] at hok
              subst hok
              refine ⟨?_, ?_, ?_⟩
              · rw [dictGet_dictSet_ne _ _ _ _ (by decide)]
                exact dictGet_dictRemove_self h2 MULTILIB_PROP
              · intro k hk1 hk2
                rw [dictGet_dictSet_ne _ _ _ _ hk1]
                exact dictGet_dictRemove_ne h2 MULTILIB_PROP k hk2
              · intro ms hms my hmem
                rw [dictGet_dictSet_self] at hms
                have hmseq : ms = modules := by
                  injection hms with hms2
                  injection hms2 with hms3
                  exact hms3.symm
                rw [hmseq] at hmem
                exact processModules_flagfree _
                  (fun om out2 hpm2 my2 hmem2 =>
                    processModule_flagfree fs recur hrec hd hf bd _ variants hvs
                      om out2 hpm2 my2 hmem2)
                  l modules hpms my hmem

set_option maxHeartbeats 1600000 in
/-- C9 amended: whenever `multilibify` succeeds and the (resolved)
variant override documents themselves carry no opt-out key, the output
holder has no opt-out flag, the root holder of a top-level run (unset
`variants`) no longer carries either variant extraction property, and no
emitted module of the output carries the opt-out flag; the statement
quantifies over all arguments, so it applies at every nesting depth of
the recursion. -/
theorem c9_metadata_removal :
    ∀ (fuel : Nat) (fs h : DictMap) (hf : String) (bdO : Option String)
      (vsO : Option (List (String × Value))) (out : DictMap),
      multilibify fs fuel h hf bdO vsO = Except.ok out →
      (∀ vs, vsO = some vs → propsFlagFree vs) →
      (vsO = none → ∀ vs h2, resolveVariants fs (dirname hf) h =
          Except.ok (vs, h2) → propsFlagFree vs) →
      dictGet out MULTILIB_PROP = none ∧
      (vsO = none → dictGet out "x-native-module" = none ∧
          dictGet out "x-compat32-module" = none) ∧
      (∀ ms, dictGet out "modules" = some (Value.seq ms) →
          ∀ my : DictMap, Value.map my ∈ ms →
            dictGet my MULTILIB_PROP = none) := by
  intro fuel
  induction fuel with
  | zero =>
      intro fs h hf bdO vsO out hok _ _
      simp [multilibify] at hok
  | succ fuel ih =>
      intro fs h hf bdO vsO out hok hsome hnone
      simp only [multilibify] at hok
      generalize (match bdO with | none => dirname hf | some b => b) = bd at hok
      have hrec : ∀ h2 f v out2, propsFlagFree v →
          multilibify fs fuel h2 f (some bd) (some v) = Except.ok out2 →
          dictGet out2 MULTILIB_PROP = none := by
        intro h2 f v out2 hpf hok2
        exact (ih fs h2 f (some bd) (some v) out2 hok2
          (fun vs hvs => by cases hvs; exact hpf)
          (fun hn => Option.noConfusion hn)).1
      cases vsO with
      | some vs =>
          simp only [exceptPure, exceptBind_ok] at hok
          have hcore := multilibifyCore_flagfree fs _ hrec
            (dirname hf) hf bd vs h out (hsome vs rfl) hok
          refine ⟨hcore.1, fun hn => ?_, hcore.2.2⟩
          exact Option.noConfusion hn
      | none =>
          cases hres : resolveVariants fs (dirname hf) h with
          | error e => rw [hres] at hok; simp at hok
          | ok pr =>
              rw [hres] at hok
              simp only [exceptBind_ok] at hok
              obtain ⟨vs, h2⟩ := pr
              have hpf := hnone rfl vs h2 hres
              have hcore := multilibifyCore_flagfree fs _ hrec
                (dirname hf) hf bd vs h2 out hpf hok
              refine ⟨hcore.1, ?_, hcore.2.2⟩
              intro _
              have hh2 := resolveVariants_holder fs (dirname hf) h vs h2 hres
              constructor
              · rw [hcore.2.1 "x-native-module" (by decide) (by decide), hh2,
                  dictGet_dictRemove_ne _ _ _ (by decide)]
                exact dictGet_dictRemove_self h "x-native-module"
              · rw [hcore.2.1 "x-compat32-module" (by decide) (by decide), hh2]
                exact dictGet_dictRemove_self _ "x-compat32-module"

/-- C9 as frozen is false: a variant override document may itself carry
the opt-out key, and line 93's merge writes it into the produced module
after line 88 already popped it — here `x-native-module` is
`(x-multilib: true)` and the emitted `native` module still contains
`x-multilib` even though the pass processed it.  (The root holder's
metadata keys are gone, as the claim says.) -/
theorem c9_counterexample :
    multilibify [] 1
      [("modules", Value.seq [Value.map
         [("name", Value.str "a"), ("sources", Value.seq [])]]),
       ("x-native-module", Value.map [("x-multilib", Value.bool true)]),
       ("x-compat32-module", Value.map [])]
      "m.json" none none =
    Except.ok
      [("modules", Value.seq
        [Value.map [("name", Value.str "a"), ("sources", Value.seq []),
           ("x-multilib", Value.bool true)],
         Value.map [("name", Value.str "a-32bit"), ("sources", Value.seq [])]])] ∧
    dictGet [("name", Value.str "a"), ("sources", Value.seq []),
      ("x-multilib", Value.bool true)] MULTILIB_PROP =
      some (Value.bool true) :=
  ⟨rfl, rfl⟩

/-- Witness for C9 (amended) on a full top-level run: both metadata
properties and the flag are gone from the root, and neither emitted
module carries the flag. -/
theorem c9_metadata_removal_witness :
    dictGet [("modules", Value.seq
        [Value.map [("name", Value.str "a"), ("sources", Value.seq [])],
         Value.map [("name", Value.str "a-32bit"), ("sources", Value.seq [])]])]
      MULTILIB_PROP = none ∧
    dictGet [("modules", Value.seq
        [Value.map [("name", Value.str "a"), ("sources", Value.seq [])],
         Value.map [("name", Value.str "a-32bit"), ("sources", Value.seq [])]])]
      "x-native-module" = none ∧
    dictGet [("modules", Value.seq
        [Value.map [("name", Value.str "a"), ("sources", Value.seq [])],
         Value.map [("name", Value.str "a-32bit"), ("sources", Value.seq [])]])]
      "x-compat32-module" = none ∧
    dictGet [("name", Value.str "a"), ("sources", Value.seq [])]
      MULTILIB_PROP = none ∧
    dictGet [("name", Value.str "a-32bit"), ("sources", Value.seq [])]
      MULTILIB_PROP = none := by
  have h := c9_metadata_removal 1 []
    [("modules", Value.seq [Value.map
       [("name", Value.str "a"), ("sources", Value.seq []),
        ("x-multilib", Value.bool true)]])]
    "m.json" none none
    [("modules", Value.seq
      [Value.map [("name", Value.str "a"), ("sources", Value.seq [])],
       Value.map [("name", Value.str "a-32bit"), ("sources", Value.seq [])]])]
    rfl
    (fun vs hvs => Option.noConfusion hvs)
    (fun _ vs h2 hres => by
      have h2r : resolveVariants [] (dirname "m.json")
          [("modules", Value.seq [Value.map
             [("name", Value.str "a"), ("sources", Value.seq []),
              ("x-multilib", Value.bool true)]])] =
          Except.ok ([("native", Value.map []), ("compat", Value.map [])],
            [("modules", Value.seq [Value.map
               [("name", Value.str "a"), ("sources", Value.seq []),
                ("x-multilib", Value.bool true)]])]) := rfl
      rw [h2r] at hres
      have hvseq : [("native", Value.map []), ("compat", Value.map [])] = vs := by
        injection hres with hpair
        exact congrArg Prod.fst hpair
      intro x hx pm hpm
      rw [← hvseq] at hx
      rcases List.mem_cons.mp hx with rfl | hx2
      · simp only at hpm
        cases hpm
        rfl
      · rcases List.mem_cons.mp hx2 with rfl | hx3
        · simp only at hpm
          cases hpm
          rfl
        · cases hx3)
  refine ⟨h.1, (h.2.1 rfl).1, (h.2.1 rfl).2, ?_, ?_⟩
  · exact h.2.2 _ rfl _ (List.mem_cons_self _ _)
  · exact h.2.2 _ rfl _ (List.mem_cons_of_mem _ (List.mem_cons_self _ _))

/-! ## Claim C7: the cleanup filter -/

/-- Matching a run of literal atoms followed by `ts` consumes exactly
those characters before handing over to `ts`. -/
theorem reMatchToks_lits_append (cs : List Char) :
    ∀ (ts : List (RTok × Bool)) (s : List Char),
      reMatchToks (cs.map litTok ++ ts) s = true ↔
        ∃ t, s = cs ++ t ∧ reMatchToks ts t = true := by
  induction cs with
  | nil =>
      intro ts s
      simp
  | cons c cs ih =>
      intro ts s
      cases s with
      | nil =>
          simp [litTok, reMatchToks]
      | cons x xs =>
          simp only [List.map_cons, List.cons_append, litTok, reMatchToks,
            tokMatches, Bool.and_eq_true, decide_eq_true_eq, List.append_eq]
          rw [ih ts xs]
          constructor
          · rintro ⟨hcx, t, ht, hts⟩
            exact ⟨t, by rw [← hcx, ht], hts⟩
          · rintro ⟨t, ht, hts⟩
            have hx : x = c := by
              have := congrArg (fun l => List.head? l) ht
              simpa using this
            refine ⟨hx.symm, t, ?_, hts⟩
            have := congrArg (fun l => List.tail l) ht
            simpa using this

/-- Matching a bare run of literal atoms is exactly a prefix match. -/
theorem reMatchToks_lits (cs : List Char) (s : List Char) :
    reMatchToks (cs.map litTok) s = true ↔ ∃ t, s = cs ++ t := by
  have h := reMatchToks_lits_append cs [] s
  rw [List.append_nil] at h
  rw [h]
  constructor
  · rintro ⟨t, ht, _⟩; exact ⟨t, ht⟩
  · rintro ⟨t, ht⟩; exact ⟨t, ht, rfl⟩

/-- A `.+` atom followed by literal atoms: some positive number of
non-newline characters, then the literal run as a prefix of the rest. -/
theorem reMatchToks_dotplus (p2 : List Char) (t : List Char) :
    reMatchToks ((RTok.dot, true) :: p2.map litTok) t = true ↔
      ∃ mid r, t = mid ++ p2 ++ r ∧ mid ≠ [] ∧ '\n' ∉ mid := by
  simp only [reMatchToks]
  rw [List.any_eq_true]
  constructor
  · rintro ⟨k, hk, hcond⟩
    rw [List.mem_range] at hk
    rw [Bool.and_eq_true] at hcond
    obtain ⟨hall, hrest⟩ := hcond
    obtain ⟨r, hr⟩ := (reMatchToks_lits p2 _).mp hrest
    refine ⟨t.take (k + 1), r, ?_, ?_, ?_⟩
    · conv_lhs => rw [← List.take_append_drop (k + 1) t]
      rw [hr, List.append_assoc]
    · have hlen : (t.take (k + 1)).length = k + 1 := by
        rw [List.length_take]
        omega
      intro hnil
      rw [hnil] at hlen
      simp at hlen
    · intro hmem
      have := List.all_eq_true.mp hall _ hmem
      simp [tokMatches] at this
  · rintro ⟨mid, r, ht, hne, hnl⟩
    have hmpos : 1 ≤ mid.length := by
      cases mid with
      | nil => exact absurd rfl hne
      | cons a b => simp
    refine ⟨mid.length - 1, ?_, ?_⟩
    · rw [List.mem_range, ht]
      simp only [List.length_append]
      omega
    · rw [Bool.and_eq_true]
      have hmlen : mid.length - 1 + 1 = mid.length := by omega
      constructor
      · rw [ht, List.append_assoc, hmlen, List.take_left]
        rw [List.all_eq_true]
        intro c hc
        simp only [tokMatches, decide_eq_true_eq]
        intro hcn
        exact hnl (hcn ▸ hc)
      · rw [ht, List.append_assoc, hmlen, List.drop_left]
        exact (reMatchToks_lits p2 _).mpr ⟨r, rfl⟩

theorem reMatch_include_iff (s : String) :
    reMatch "^/include" s = true ↔ ∃ t, s.data = "/include".data ++ t := by
  have e : reMatch "^/include" s =
      reMatchToks ("/include".data.map litTok) s.data := rfl
  rw [e, reMatchToks_lits]

theorem reMatch_lib_dot_include_iff (s : String) :
    reMatch "^/lib/.+/include" s = true ↔
      ∃ mid t, s.data = "/lib/".data ++ mid ++ "/include".data ++ t ∧
        mid ≠ [] ∧ '\n' ∉ mid := by
  have e : reMatch "^/lib/.+/include" s =
      reMatchToks ("/lib/".data.map litTok ++
        ((RTok.dot, true) :: "/include".data.map litTok)) s.data := rfl
  rw [e, reMatchToks_lits_append]
  constructor
  · rintro ⟨t, ht, hm⟩
    obtain ⟨mid, r, hmt, hne, hnl⟩ := (reMatchToks_dotplus _ t).mp hm
    refine ⟨mid, r, ?_, hne, hnl⟩
    rw [ht, hmt]
    simp [List.append_assoc]
  · rintro ⟨mid, r, hs, hne, hnl⟩
    refine ⟨mid ++ "/include".data ++ r, ?_, ?_⟩
    · rw [hs]
      simp [List.append_assoc]
    · exact (reMatchToks_dotplus _ _).mpr ⟨mid, r, rfl, hne, hnl⟩

theorem reMatch_lib_pkgconfig_iff (s : String) :
    reMatch "^/lib/pkgconfig" s = true ↔
      ∃ t, s.data = "/lib/pkgconfig".data ++ t := by
  have e : reMatch "^/lib/pkgconfig" s =
      reMatchToks ("/lib/pkgconfig".data.map litTok) s.data := rfl
  rw [e, reMatchToks_lits]

theorem reMatch_share_pkgconfig_iff (s : String) :
    reMatch "^/share/pkgconfig" s = true ↔
      ∃ t, s.data = "/share/pkgconfig".data ++ t := by
  have e : reMatch "^/share/pkgconfig" s =
      reMatchToks ("/share/pkgconfig".data.map litTok) s.data := rfl
  rw [e, reMatchToks_lits]

theorem reMatch_share_aclocal_iff (s : String) :
    reMatch "^/share/aclocal" s = true ↔
      ∃ t, s.data = "/share/aclocal".data ++ t := by
  have e : reMatch "^/share/aclocal" s =
      reMatchToks ("/share/aclocal".data.map litTok) s.data := rfl
  rw [e, reMatchToks_lits]

theorem reMatch_lib_cmake_iff (s : String) :
    reMatch "^/lib/cmake" s = true ↔
      ∃ t, s.data = "/lib/cmake".data ++ t := by
  have e : reMatch "^/lib/cmake" s =
      reMatchToks ("/lib/cmake".data.map litTok) s.data := rfl
  rw [e, reMatchToks_lits]

/-- C7: the cleanup filter's pattern test agrees exactly with the
anchored-prefix reading of the six fixed patterns (a match fires at the
string's start without having to reach its end); a `cleanup` sequence of
strings keeps, in their original order, exactly the non-matching
entries; every other key of every mapping is untouched; a `modules`
sequence is recursed into element-wise — so the characterisation applies
at every nesting depth; paths and names live under other keys and are
therefore unaffected. -/
theorem c7_cleanup_filter :
    (∀ s : String, (UNCLEANUP_PATTERNS.any fun r => reMatch r s) = true ↔
        matchesUncleanupSpec s) ∧
    (∀ l : List String,
        filterCleanup (Value.seq (l.map Value.str)) =
          Value.seq ((l.filter
            (fun s => !(UNCLEANUP_PATTERNS.any fun r => reMatch r s))).map
              Value.str)) ∧
    (∀ (m : DictMap) (k : String), k ≠ "cleanup" → k ≠ "modules" →
        dictGet (uncleanupDict m) k = dictGet m k) ∧
    (∀ (m : DictMap) (v : Value), dictGet m "cleanup" = some v →
        dictGet (uncleanupDict m) "cleanup" = some (filterCleanup v)) ∧
    (∀ (m : DictMap) (v : Value), dictGet m "modules" = some v →
        dictGet (uncleanupDict m) "modules" = some (uncleanupModules v)) ∧
    (∀ l : List Value, uncleanupList l = l.map uncleanup) := by
  refine ⟨?_, ?_, ?_, ?_, ?_, ?_⟩
  · intro s
    have hany : (UNCLEANUP_PATTERNS.any fun r => reMatch r s) =
        (reMatch "^/include" s || (reMatch "^/lib/.+/include" s ||
          (reMatch "^/lib/pkgconfig" s || (reMatch "^/share/pkgconfig" s ||
            (reMatch "^/share/aclocal" s ||
              (reMatch "^/lib/cmake" s || false)))))) := rfl
    rw [hany]
    simp only [Bool.or_eq_true]
    rw [reMatch_include_iff, reMatch_lib_dot_include_iff,
      reMatch_lib_pkgconfig_iff, reMatch_share_pkgconfig_iff,
      reMatch_share_aclocal_iff, reMatch_lib_cmake_iff]
    simp only [Bool.false_eq_true, or_false]
    rfl
  · intro l
    simp only [filterCleanup, List.filter_map]
    rfl
  · intro m k hk1 hk2
    induction m with
    | nil => rfl
    | cons kv rest ih =>
        obtain ⟨k', v'⟩ := kv
        by_cases hk : k' = k
        · subst hk
          simp only [uncleanupDict, dictGet, if_pos rfl, if_true,
            eq_self_iff_true, if_neg hk1, if_neg hk2]
        · simp only [uncleanupDict, dictGet, if_neg hk, ih]
  · intro m v hget
    induction m with
    | nil => simp [dictGet] at hget
    | cons kv rest ih =>
        obtain ⟨k', v'⟩ := kv
        by_cases hk : k' = "cleanup"
        · subst hk
          simp only [dictGet, if_pos rfl, if_true, eq_self_iff_true,
            Option.some.injEq] at hget
          subst hget
          simp only [uncleanupDict, if_pos rfl, if_true, eq_self_iff_true, dictGet]
        · simp only [dictGet, if_neg hk] at hget
          simp only [uncleanupDict, dictGet, if_neg hk, ih hget]
  · intro m v hget
    induction m with
    | nil => simp [dictGet] at hget
    | cons kv rest ih =>
        obtain ⟨k', v'⟩ := kv
        by_cases hk : k' = "modules"
        · subst hk
          simp only [dictGet, if_pos rfl, if_true, eq_self_iff_true,
            Option.some.injEq] at hget
          subst hget
          simp only [uncleanupDict, if_neg (by decide : ¬("modules" = "cleanup")),
            if_pos rfl, if_true, eq_self_iff_true, dictGet]
        · simp only [dictGet, if_neg hk] at hget
          simp only [uncleanupDict, dictGet, if_neg hk, ih hget]
  · intro l
    induction l with
    | nil => rfl
    | cons x rest ih => simp only [uncleanupList, ih, List.map_cons]

/-- Witness for C7 at concrete data: a spec-side match derived from the
engine, the dot-plus pattern firing on a deep include directory, a
concrete filtered cleanup list (order kept, non-matching survivors), and
an untouched unrelated key. -/
theorem c7_cleanup_filter_witness :
    matchesUncleanupSpec "/include/x.h" ∧
    (UNCLEANUP_PATTERNS.any fun r =>
        reMatch r "/lib/x86_64-linux-gnu/include/foo.h") = true ∧
    filterCleanup (Value.seq
      [Value.str "/include/x.h", Value.str "/usr/lib/foo.so",
       Value.str "/lib/pkgconfig/x.pc", Value.str "/bin/tool"]) =
      Value.seq [Value.str "/usr/lib/foo.so", Value.str "/bin/tool"] ∧
    dictGet (uncleanupDict
      [("name", Value.str "a"),
       ("cleanup", Value.seq [Value.str "/include/x.h"])]) "name" =
      dictGet
        [("name", Value.str "a"),
         ("cleanup", Value.seq [Value.str "/include/x.h"])] "name" := by
  have h := c7_cleanup_filter
  refine ⟨(h.1 "/include/x.h").mp rfl, ?_, ?_, ?_⟩
  · exact (h.1 "/lib/x86_64-linux-gnu/include/foo.h").mpr
      (Or.inr (Or.inl ⟨"x86_64-linux-gnu".data, "/foo.h".data, rfl,
        by decide, by decide⟩))
  · exact h.2.1 ["/include/x.h", "/usr/lib/foo.so", "/lib/pkgconfig/x.pc",
      "/bin/tool"]
  · exact h.2.2.1
      [("name", Value.str "a"),
       ("cleanup", Value.seq [Value.str "/include/x.h"])]
      "name" (by decide) (by decide)

/-! ## Claim C3: nested module files and the constant `base_dir` -/

theorem joinParts_append_singleton :
    ∀ (ps : List (List Char)) (q : List Char), ps ≠ [] →
      joinParts (ps ++ [q]) = joinParts ps ++ '/' :: q := by
  intro ps
  induction ps with
  | nil => intro q h; exact absurd rfl h
  | cons p rest ih =>
      intro q _
      cases rest with
      | nil => rfl
      | cons r rs =>
          rw [List.cons_append, joinParts_cons_ne p ((r :: rs) ++ [q]) (by simp),
            ih q (by simp), joinParts_cons_ne p (r :: rs) (by simp),
            List.append_assoc]
          rfl

theorem joinParts_append_pair (ps : List (List Char)) (q r : List Char)
    (h : ps ≠ []) :
    joinParts (ps ++ [q, r]) = joinParts ps ++ '/' :: (q ++ '/' :: r) := by
  rw [show ps ++ [q, r] = (ps ++ [q]) ++ [r] by rw [List.append_assoc]; rfl]
  rw [joinParts_append_singleton _ _ (by simp), joinParts_append_singleton _ _ h,
    List.append_assoc]
  rfl

theorem subsL_succ_append : ∀ i, subsL (i + 1) = subsL i ++ ["sub".data] := by
  intro i
  induction i with
  | zero => rfl
  | succ j ih =>
      show "sub".data :: subsL (j + 1) = ("sub".data :: subsL j) ++ ["sub".data]
      rw [List.cons_append, ← ih]

theorem mem_subsL : ∀ i, ∀ c ∈ subsL i, c = "sub".data := by
  intro i
  induction i with
  | zero => intro c hc; exact absurd hc (List.not_mem_nil c)
  | succ j ih =>
      intro c hc
      have hc2 : c ∈ "sub".data :: subsL j := hc
      rcases List.mem_cons.mp hc2 with h | h
      · exact h
      · exact ih c h

theorem subsL_succ_ne_nil (i : Nat) : subsL (i + 1) ≠ [] := by
  show "sub".data :: subsL i ≠ []
  simp

theorem joinParts_subsL_ne_nil (i : Nat) : joinParts (subsL (i + 1)) ≠ [] := by
  cases hs : subsL i with
  | nil =>
      show joinParts ("sub".data :: subsL i) ≠ []
      rw [hs]
      decide
  | cons a l =>
      show joinParts ("sub".data :: subsL i) ≠ []
      rw [hs, joinParts_cons_ne _ _ (by simp)]
      simp

theorem getLast?_joinParts_subsL (i : Nat) :
    (joinParts (subsL (i + 1))).getLast? = some 'b' := by
  rw [subsL_succ_append]
  cases hs : subsL i with
  | nil => rfl
  | cons a l =>
      rw [joinParts_append_singleton _ _ (by simp),
        List.getLast?_append_of_ne_nil _ (by simp)]
      rfl

theorem lastSlash_dirStr (i : Nat) : lastSlash (dirStr (i + 1)) = false := by
  unfold lastSlash
  rw [show (dirStr (i + 1)).data = joinParts (subsL (i + 1)) from rfl,
    getLast?_joinParts_subsL]
  rfl

theorem joinPath_dirStr (i : Nat) (q : String) (hq : headSlash q = false) :
    joinPath (dirStr (i + 1)) q =
      String.mk (joinParts (subsL (i + 1)) ++ '/' :: q.data) := by
  unfold joinPath
  rw [hq]
  simp only [Bool.false_eq_true, if_false]
  rw [if_neg (by
    rintro (h | h)
    · exact joinParts_subsL_ne_nil i h
    · rw [lastSlash_dirStr i] at h
      exact Bool.noConfusion h)]
  rfl

theorem joinPath_dirStr_child (i : Nat) :
    joinPath (dirStr i) "sub/c.json" = chainFile (i + 1) := by
  cases i with
  | zero => rfl
  | succ j =>
      have h1 : subsL (j + 1 + 1) ++ ["c.json".data] =
          subsL (j + 1) ++ ["sub".data, "c.json".data] := by
        rw [subsL_succ_append (j + 1), List.append_assoc]
        rfl
      show joinPath (dirStr (j + 1)) "sub/c.json" =
        String.mk (joinParts (subsL (j + 1 + 1) ++ ["c.json".data]))
      rw [joinPath_dirStr j "sub/c.json" rfl, h1,
        joinParts_append_pair _ _ _ (subsL_succ_ne_nil j)]
      rfl

theorem joinPath_dirStr_src (i : Nat) :
    joinPath (dirStr (i + 1)) "src.c" = chainSrcPath (i + 1) := by
  rw [joinPath_dirStr i "src.c" rfl]
  show String.mk (joinParts (subsL (i + 1)) ++ '/' :: "src.c".data) =
    String.mk (joinParts (subsL (i + 1) ++ ["src.c".data]))
  rw [joinParts_append_singleton _ _ (subsL_succ_ne_nil i)]

theorem dropWhile_append_all {p : Char → Bool} :
    ∀ (a b : List Char), (∀ c ∈ a, p c = true) →
      List.dropWhile p (a ++ b) = List.dropWhile p b := by
  intro a
  induction a with
  | nil => intro b _; rfl
  | cons x l ih =>
      intro b h
      rw [List.cons_append, List.dropWhile_cons,
        if_pos (h x (List.mem_cons_self x l))]
      exact ih b (fun c hc => h c (List.mem_cons_of_mem _ hc))

theorem dirnameList_concat (xs ys : List Char) (hys : ∀ c ∈ ys, c ≠ '/')
    (hxs : xs ≠ []) (hlast : ∀ c, xs.getLast? = some c → c ≠ '/') :
    dirnameList (xs ++ '/' :: ys) = xs := by
  obtain ⟨init, lc, hx⟩ : ∃ init lc, xs = init ++ [lc] := by
    rcases List.eq_nil_or_concat' xs with h | ⟨init, lc, h⟩
    · exact absurd h hxs
    · exact ⟨init, lc, h⟩
  have hlc : lc ≠ '/' := hlast lc (by rw [hx, List.getLast?_concat])
  subst hx
  have hrev : ((init ++ [lc]) ++ '/' :: ys).reverse =
      ys.reverse ++ '/' :: lc :: init.reverse := by
    simp
  have hdw : List.dropWhile (fun c => c ≠ '/')
      (ys.reverse ++ '/' :: lc :: init.reverse) = '/' :: lc :: init.reverse := by
    rw [dropWhile_append_all _ _
      (fun c hc => decide_eq_true (hys c (List.mem_reverse.mp hc))),
      List.dropWhile_cons]
    simp
  have hdw2 : List.dropWhile (fun c => c = '/') ('/' :: lc :: init.reverse) =
      lc :: init.reverse := by
    rw [List.dropWhile_cons, if_pos (by decide), List.dropWhile_cons,
      if_neg (fun h => hlc (of_decide_eq_true h))]
  simp only [dirnameList]
  rw [hrev, hdw, show ('/' :: lc :: init.reverse).reverse = init ++ [lc, '/'] by
    simp]
  rw [if_neg (by simp)]
  rw [if_neg (fun h => hlc (of_decide_eq_true
    (List.all_eq_true.mp h lc (by simp))))]
  rw [show (init ++ [lc, '/']).reverse = '/' :: lc :: init.reverse by simp, hdw2]
  simp

theorem dirname_chainFile (i : Nat) :
    dirname (chainFile (i + 1)) = dirStr (i + 1) := by
  have hys : ∀ c ∈ "c.json".data, c ≠ '/' := by decide
  have hlastg : ∀ c, (joinParts (subsL (i + 1))).getLast? = some c → c ≠ '/' := by
    intro c h
    rw [getLast?_joinParts_subsL i] at h
    injection h with h2
    subst h2
    decide
  have hdata : (chainFile (i + 1)).data =
      joinParts (subsL (i + 1)) ++ '/' :: "c.json".data := by
    show joinParts (subsL (i + 1) ++ ["c.json".data]) = _
    rw [joinParts_append_singleton _ _ (subsL_succ_ne_nil i)]
  show String.mk (dirnameList (chainFile (i + 1)).data) = dirStr (i + 1)
  rw [hdata,
    dirnameList_concat _ _ hys (joinParts_subsL_ne_nil i) hlastg]
  rfl

theorem goodComp_subsL_src (i : Nat) :
    ∀ c ∈ subsL i ++ ["src.c".data], goodComp c := by
  intro c hc
  rcases List.mem_append.mp hc with h | h
  · rw [mem_subsL i c h]
    decide
  · rw [List.mem_singleton] at h
    subst h
    decide

theorem relpath_chainSrcPath (i : Nat) :
    relpath (chainSrcPath (i + 1)) "" = chainSrcPath (i + 1) := by
  have hne : subsL (i + 1) ++ ["src.c".data] ≠ [] := by simp
  have habs : absParts (chainSrcPath (i + 1)) =
      absParts "" ++ (subsL (i + 1) ++ ["src.c".data]) := by
    rw [show absParts "" = ([] : List (List Char)) from rfl, List.nil_append]
    exact absParts_joinParts _ hne (goodComp_subsL_src (i + 1))
  rw [relpath_append_clean (chainSrcPath (i + 1)) "" _ hne habs]
  rfl

theorem strEndsWith_append_eq (a b : List Char) (s : String)
    (h : s.data.length = b.length) :
    strEndsWith (String.mk (a ++ b)) s = decide (b = s.data) := by
  unfold strEndsWith
  rw [show (String.mk (a ++ b)).data = a ++ b from rfl, List.length_append, h,
    if_pos (Nat.le_add_left _ _), Nat.add_sub_cancel, List.drop_left]

theorem load_format_slash_cjson (l : List Char) :
    load_format (String.mk (l ++ '/' :: "c.json".data)) = some FileFormat.json := by
  rw [show l ++ '/' :: "c.json".data = l ++ "/c.json".data from rfl]
  have e1 : strEndsWith (String.mk (l ++ "/c.json".data)) ".yml" = false := by
    rw [show l ++ "/c.json".data = (l ++ "/c.".data) ++ "json".data by
      rw [List.append_assoc]; rfl]
    rw [strEndsWith_append_eq (l ++ "/c.".data) "json".data ".yml" rfl]
    rfl
  have e2 : strEndsWith (String.mk (l ++ "/c.json".data)) ".yml.in" = false := by
    rw [strEndsWith_append_eq l "/c.json".data ".yml.in" rfl]
    rfl
  have e3 : strEndsWith (String.mk (l ++ "/c.json".data)) ".yaml" = false := by
    rw [show l ++ "/c.json".data = (l ++ "/c".data) ++ ".json".data by
      rw [List.append_assoc]; rfl]
    rw [strEndsWith_append_eq (l ++ "/c".data) ".json".data ".yaml" rfl]
    rfl
  have e4 : strEndsWith (String.mk (l ++ "/c.json".data)) "yaml.in" = false := by
    rw [strEndsWith_append_eq l "/c.json".data "yaml.in" rfl]
    rfl
  have e5 : strEndsWith (String.mk (l ++ "/c.json".data)) ".json" = true := by
    rw [show l ++ "/c.json".data = (l ++ "/c".data) ++ ".json".data by
      rw [List.append_assoc]; rfl]
    rw [strEndsWith_append_eq (l ++ "/c".data) ".json".data ".json" rfl]
    rfl
  simp only [load_format, List.any_cons, List.any_nil, e1, e2, e3, e4, e5,
    Bool.or_false, Bool.false_or, Bool.true_or, Bool.false_eq_true, if_false,
    if_true]

theorem load_format_chainFile (i : Nat) :
    load_format (chainFile (i + 1)) = some FileFormat.json := by
  have hdata : chainFile (i + 1) =
      String.mk (joinParts (subsL (i + 1)) ++ '/' :: "c.json".data) := by
    show String.mk (joinParts (subsL (i + 1) ++ ["c.json".data])) = _
    rw [joinParts_append_singleton _ _ (subsL_succ_ne_nil i)]
  rw [hdata]
  exact load_format_slash_cjson _

theorem chainFile_data_len : ∀ i, (chainFile i).data.length = 4 * i + 6 := by
  intro i
  induction i with
  | zero => rfl
  | succ j ih =>
      have h : (chainFile (j + 1)).data = "sub".data ++ '/' :: (chainFile j).data :=
        joinParts_cons_ne "sub".data (subsL j ++ ["c.json".data]) (by simp)
      rw [h, List.length_append,
        show ('/' :: (chainFile j).data).length = (chainFile j).data.length + 1
          from rfl, ih]
      show 3 + (4 * j + 6 + 1) = 4 * (j + 1) + 6
      omega

theorem chainFile_ne (a b : Nat) (h : a ≠ b) : chainFile a ≠ chainFile b := by
  intro he
  apply h
  have hl : (chainFile a).data.length = (chainFile b).data.length := by rw [he]
  rw [chainFile_data_len, chainFile_data_len] at hl
  omega

theorem dictGet_append (l1 l2 : DictMap) (k : String) :
    dictGet (l1 ++ l2) k =
      match dictGet l1 k with
      | some v => some v
      | none => dictGet l2 k := by
  induction l1 with
  | nil => rfl
  | cons e t ih =>
      obtain ⟨k1, v1⟩ := e
      show dictGet ((k1, v1) :: (t ++ l2)) k = _
      by_cases hk : k1 = k
      · simp [dictGet, hk]
      · simp only [dictGet, if_neg hk, ih]

theorem dictGet_range_none (g : Nat → Value) :
    ∀ (m : Nat) (key : String), (∀ j, j < m → chainFile (j + 1) ≠ key) →
      dictGet ((List.range m).map (fun j => (chainFile (j + 1), g j))) key =
        none := by
  intro m
  induction m with
  | zero => intro key _; rfl
  | succ m ih =>
      intro key h
      rw [List.range_succ, List.map_append, dictGet_append,
        ih key (fun j hj => h j (by omega))]
      show dictGet [(chainFile (m + 1), g m)] key = none
      simp [dictGet, h m (by omega)]

theorem dictGet_range_some (g : Nat → Value) :
    ∀ (m i : Nat), i < m →
      dictGet ((List.range m).map (fun j => (chainFile (j + 1), g j)))
          (chainFile (i + 1)) = some (g i) := by
  intro m
  induction m with
  | zero => intro i h; exact absurd h (Nat.not_lt_zero i)
  | succ m ih =>
      intro i h
      rw [List.range_succ, List.map_append, dictGet_append]
      rcases Nat.lt_or_ge i m with him | him
      · rw [ih i him]
      · have hieq : i = m := by omega
        subst hieq
        rw [dictGet_range_none g i _ (fun j hj => chainFile_ne _ _ (by omega))]
        show dictGet [(chainFile (i + 1), g i)] (chainFile (i + 1)) = some (g i)
        simp [dictGet]

theorem dictGet_fsChain (n i : Nat) (h : i < n) :
    dictGet (fsChain n) (chainFile (i + 1)) = some (chainDoc (i + 1) n) :=
  dictGet_range_some (fun j => chainDoc (j + 1) n) n i h

theorem chainProcessModule (n : Nat)
    (recur : DictMap → String → List (String × Value) → Except Err DictMap)
    (hm : Value) (hmt : hm.truthy = true) (hf : String) (i k : Nat)
    (hin : i + 1 + k = n)
    (hrec : 1 ≤ k →
      recur (chainHolder (i + 1)) (chainFile (i + 1))
          [("native", Value.map [])] =
        Except.ok (chainOutAux k (i + 1))) :
    processModule (fsChain n) recur (dirStr i) hf "" hm
        [("native", Value.map [])] (Value.str "sub/c.json") =
      Except.ok [Value.map (chainOutAux k (i + 1))] := by
  have hload : load_dict_file (fsChain n) (chainFile (i + 1)) =
      Except.ok (chainDoc (i + 1) n) := by
    unfold load_dict_file
    rw [dictGet_fsChain n i (by omega), load_format_chainFile i]
  have hdir := dirname_chainFile i
  have hsrc := joinPath_dirStr_src i
  have hrel := relpath_chainSrcPath i
  have happ : ("m" : String) ++ "" = "m" := rfl
  have hone : rewriteSource (chainFile (i + 1)) ""
      (Value.map [("path", Value.str "src.c")]) =
      Except.ok (Value.map [("path", Value.str (chainSrcPath (i + 1)))]) := by
    simp [rewriteSource, dictGet, dictSet, hdir, hsrc, hrel]
  have hmap : List.mapM.loop (rewriteSource (chainFile (i + 1)) "")
      [Value.map [("path", Value.str "src.c")]] [] =
      Except.ok [Value.map [("path", Value.str (chainSrcPath (i + 1)))]] := by
    simp [List.mapM.loop, hone]
  simp only [processModule, joinPath_dirStr_child i, hload, exceptBind_ok,
    exceptPure]
  rcases Nat.eq_zero_or_pos k with hk0 | hkpos
  · subst hk0
    have hdoc : chainDoc (i + 1) n = Value.map
        [("name", Value.str "m"),
         ("sources", Value.seq [Value.map [("path", Value.str "src.c")]])] := by
      have hp : ¬ i + 1 < n := by omega
      simp [chainDoc, hp]
    rw [hdoc]
    simp [processResolvedModule, rewriteSources, rewriteSource, processVariants,
      dictGet, dictSet, dictPop, dictRemove, MULTILIB_PROP, hdir, hsrc, hrel,
      hmt, happ, pyFormatStr, variantsFind, VARIANTS, chainOutAux, hmap]
  · have hdoc : chainDoc (i + 1) n = Value.map
        [("name", Value.str "m"),
         ("sources", Value.seq [Value.map [("path", Value.str "src.c")]]),
         ("modules", Value.seq [Value.str "sub/c.json"])] := by
      have hp : i + 1 < n := by omega
      simp [chainDoc, hp]
    have hrec2 : recur [("name", Value.str "m"),
        ("sources",
          Value.seq [Value.map [("path", Value.str (chainSrcPath (i + 1)))]]),
        ("modules", Value.seq [Value.str "sub/c.json"])] (chainFile (i + 1))
        [("native", Value.map [])] = Except.ok (chainOutAux k (i + 1)) :=
      hrec hkpos
    rw [hdoc]
    simp [processResolvedModule, rewriteSources, rewriteSource, processVariants,
      dictGet, dictSet, dictPop, dictRemove, MULTILIB_PROP, hdir, hsrc, hrel,
      hmt, happ, pyFormatStr, variantsFind, VARIANTS, hrec2, hmap]

theorem chainMultilib (n : Nat) :
    ∀ k i, 1 ≤ k → 1 ≤ i → i + k = n →
      multilibify (fsChain n) (k + 1) (chainHolder i) (chainFile i) (some "")
          (some [("native", Value.map [])]) =
        Except.ok (chainOutAux k i) := by
  intro k
  induction k with
  | zero => intro i h1 _ _; exact absurd h1 (by decide)
  | succ k ih =>
      intro i _ hi hin
      have hstep : multilibify (fsChain n) (k + 1 + 1) (chainHolder i)
          (chainFile i) (some "") (some [("native", Value.map [])]) =
          multilibifyCore (fsChain n)
            (fun h f v => multilibify (fsChain n) (k + 1) h f (some "") (some v))
            (dirname (chainFile i)) (chainFile i) "" [("native", Value.map [])]
            (chainHolder i) := rfl
      have hcore : multilibifyCore (fsChain n)
          (fun h f v => multilibify (fsChain n) (k + 1) h f (some "") (some v))
          (dirStr i) (chainFile i) "" [("native", Value.map [])]
          (chainHolder i) =
          (do
            let modules ← processModules
              (processModule (fsChain n)
                (fun h f v =>
                  multilibify (fsChain n) (k + 1) h f (some "") (some v))
                (dirStr i) (chainFile i) "" (Value.bool true)
                [("native", Value.map [])])
              [Value.str "sub/c.json"]
            pure (dictSet (chainHolder i) "modules" (Value.seq modules))) := rfl
      have hdc : dirname (chainFile i) = dirStr i := by
        cases i with
        | zero => exact absurd hi (by decide)
        | succ j => exact dirname_chainFile j
      have hrec : 1 ≤ k →
          (fun h f v => multilibify (fsChain n) (k + 1) h f (some "") (some v))
              (chainHolder (i + 1)) (chainFile (i + 1))
              [("native", Value.map [])] =
            Except.ok (chainOutAux k (i + 1)) :=
        fun hk => ih (i + 1) hk (by omega) (by omega)
      have hpm := chainProcessModule n
        (fun h f v => multilibify (fsChain n) (k + 1) h f (some "") (some v))
        (Value.bool true) rfl (chainFile i) i k (by omega) hrec
      rw [hstep, hdc, hcore]
      simp only [processModules, hpm, exceptBind_ok, exceptPure,
        List.append_nil]
      rfl

/-- C3: source paths of emitted modules are expressed relative to the
directory of the original top-level manifest, however many levels of
file-referenced nested module documents in different directories were
traversed (`base_dir` is passed unchanged to the line 96 recursion).
First conjunct: for every depth `n`, a top manifest `m.json` over the
chain of files `sub/c.json`, `sub/sub/c.json`, … — each referencing the
next and each declaring the source path `src.c` relative to its own
directory — expands to nested modules whose level-`i` source path is
`sub/…/sub/src.c` (`i` copies of `sub`, see `chainOutAux`/
`chainSrcPath`), i.e. relative to the top manifest's directory and not
to the referencing file's.  Second conjunct: the spec's concrete
scenario — a root manifest referencing `sub/child.json` whose source
path is `src.c` yields `sub/src.c` in both emitted variants. -/
theorem c3_nested_paths_relative_to_top :
    (∀ n : Nat,
      multilibify (fsChain (n + 1)) (n + 2)
          [("modules", Value.seq [Value.str "sub/c.json"])] "m.json" none
          (some [("native", Value.map [])]) =
        Except.ok [("modules", Value.seq [Value.map (chainOutAux n 1)])]) ∧
    multilibify
        [("sub/child.json", Value.map
          [("name", Value.str "foo"),
           ("sources", Value.seq [Value.map [("path", Value.str "src.c")]])])]
        1
        [("modules", Value.seq [Value.str "sub/child.json"])]
        "root.json" none none =
      Except.ok [("modules", Value.seq
        [Value.map [("name", Value.str "foo"),
          ("sources", Value.seq [Value.map [("path", Value.str "sub/src.c")]])],
         Value.map [("name", Value.str "foo-32bit"),
          ("sources",
            Value.seq [Value.map [("path", Value.str "sub/src.c")]])]])] := by
  constructor
  · intro n
    have hstep : multilibify (fsChain (n + 1)) (n + 2)
        [("modules", Value.seq [Value.str "sub/c.json"])] "m.json" none
        (some [("native", Value.map [])]) =
        multilibifyCore (fsChain (n + 1))
          (fun h f v =>
            multilibify (fsChain (n + 1)) (n + 1) h f (some "") (some v))
          "" "m.json" "" [("native", Value.map [])]
          [("modules", Value.seq [Value.str "sub/c.json"])] := rfl
    have hcore : multilibifyCore (fsChain (n + 1))
        (fun h f v =>
          multilibify (fsChain (n + 1)) (n + 1) h f (some "") (some v))
        "" "m.json" "" [("native", Value.map [])]
        [("modules", Value.seq [Value.str "sub/c.json"])] =
        (do
          let modules ← processModules
            (processModule (fsChain (n + 1))
              (fun h f v =>
                multilibify (fsChain (n + 1)) (n + 1) h f (some "") (some v))
              "" "m.json" "" (Value.bool true) [("native", Value.map [])])
            [Value.str "sub/c.json"]
          pure (dictSet [("modules", Value.seq [Value.str "sub/c.json"])]
            "modules" (Value.seq modules))) := rfl
    have hrec : 1 ≤ n →
        (fun h f v =>
          multilibify (fsChain (n + 1)) (n + 1) h f (some "") (some v))
            (chainHolder 1) (chainFile 1) [("native", Value.map [])] =
          Except.ok (chainOutAux n 1) :=
      fun hn => chainMultilib (n + 1) n 1 hn (by omega) (by omega)
    have hpm2 : processModule (fsChain (n + 1))
        (fun h f v =>
          multilibify (fsChain (n + 1)) (n + 1) h f (some "") (some v))
        "" "m.json" "" (Value.bool true) [("native", Value.map [])]
        (Value.str "sub/c.json") =
        Except.ok [Value.map (chainOutAux n 1)] :=
      chainProcessModule (n + 1)
        (fun h f v =>
          multilibify (fsChain (n + 1)) (n + 1) h f (some "") (some v))
        (Value.bool true) rfl "m.json" 0 n (by omega) hrec
    rw [hstep, hcore]
    simp only [processModules, hpm2, exceptBind_ok, exceptPure,
      List.append_nil]
    rfl
  · rfl

end Multilib
